import Mathlib

/-!
Shallow embedding of the core of the `comicbook-api` repository
(entity registry / "lookbook", reference-asset generation, script delta
pruning, job manifest and the chained page renderer), with theorems
settling the frozen claims C1..C10.

Conventions used throughout:
* Python `dict[str, str]` values are modelled as association lists
  `List (String × String)` with Python's assignment semantics
  (`dictSet` replaces in place, else appends).
* Python truthiness on optional strings (`if x:`) is modelled by
  `optTruthy` (both `None` and `""` are falsy).
* External effects (image generation, GCS upload/download, the task
  queue) are modelled as oracle functions passed in explicitly.
-/

namespace ComicBookApi

/-! ### Python dict helpers -/

def dictGet? : List (String × String) → String → Option String
  | [], _ => none
  | (k, v) :: rest, key => if k = key then some v else dictGet? rest key

def dictHasKey (d : List (String × String)) (k : String) : Bool :=
  (dictGet? d k).isSome

def dictSet : List (String × String) → String → String → List (String × String)
  | [], key, v => [(key, v)]
  | (k, w) :: rest, key, v =>
      if k = key then (k, v) :: rest else (k, w) :: dictSet rest key v

def optTruthy (o : Option String) : Bool := (o.getD "") ≠ ""

/-! ### Lookbook data model (app/features/lookbook_seed/schemas.py) -/

structure ReferenceAsset where
  type : String
  url : Option String := none
  gs_uri : Option String := none
deriving DecidableEq, Repr

structure LookbookCharacter where
  id : String
  display_name : String
  role : Option String := none
  visual_canon : List (String × String) := []
  reference_assets : List ReferenceAsset := []
  created_from : String := "cover_v1"
deriving DecidableEq, Repr

/-- Model for `LookbookLocation` and `LookbookProp`, whose pydantic
definitions have identical fields (`id`, `name`, `visual_canon`,
`reference_assets`, `created_from`). -/
structure LookbookEntity where
  id : String
  name : String
  visual_canon : List (String × String) := []
  reference_assets : List ReferenceAsset := []
  created_from : String := "cover_v1"
deriving DecidableEq, Repr

structure LookbookDoc where
  version : String := "1.0.0"
  characters : List LookbookCharacter := []
  locations : List LookbookEntity := []
  props : List LookbookEntity := []
  style_profile : List (String × String) := []
deriving DecidableEq, Repr

/-! ### Seeding (app/features/lookbook_seed/service.py, seed_from_cover) -/

structure InitialIds where
  characters : List String := []
  locations : List String := []
  props : List String := []
deriving DecidableEq, Repr

/-- Model of `SeedFromCoverRequest`; `notes=None` is modelled as `[]`
(the source reads it as `(req.notes or {})`). -/
structure SeedFromCoverRequest where
  job_id : String
  cover_gs_uri : Option String := none
  cover_image_url : Option String := none
  initial_ids : InitialIds
  hints : List (String × String) := []
  user_theme : Option String := none
  notes : List (String × String) := []
deriving DecidableEq, Repr

/-- Strips a leading `char_` / `loc_` / `prop_` kind marker (first match
wins), as in `_pretty_from_id`. -/
def stripKindMarker (s : String) : String :=
  if s.startsWith "char_" then s.drop 5
  else if s.startsWith "loc_" then s.drop 4
  else if s.startsWith "prop_" then s.drop 5
  else s

/-- Python `str.title()` for the ASCII alphabet: a letter is uppercased
when the preceding character is not a letter, lowercased otherwise. -/
def pythonTitle (s : String) : String :=
  (s.data.foldl
    (fun (st : Bool × String) c =>
      let c' := if c.isAlpha then (if st.1 then c.toLower else c.toUpper) else c
      (c.isAlpha, st.2.push c'))
    (false, "")).2

/-- Model of `_pretty_from_id`: strip the kind marker, underscores to
spaces, strip, title-case, falling back to the raw id if empty. -/
def prettyFromId (id : String) : String :=
  let t := pythonTitle (((stripKindMarker id).replace "_" " ").trim)
  if t = "" then id else t

/-- Model of the `_canon_for` closure in `seed_from_cover`. -/
def canonFor (notes : List (String × String)) (id : String)
    (existing : List (String × String)) : List (String × String) :=
  let note := (dictGet? notes id).getD ""
  if note ≠ "" then dictSet existing "notes" note
  else if dictHasKey existing "notes" then existing
  else dictSet existing "notes" "Seeded from cover/script; refine with concept sheet."

/-- Cover `ReferenceAsset` built by `seed_from_cover` when either cover
locator is truthy. -/
def seedCoverRef (req : SeedFromCoverRequest) : Option ReferenceAsset :=
  if optTruthy req.cover_gs_uri || optTruthy req.cover_image_url then
    some { type := "cover", url := req.cover_image_url, gs_uri := req.cover_gs_uri }
  else none

def seedCreatedFrom (req : SeedFromCoverRequest) : String :=
  if (seedCoverRef req).isSome then "cover_v1" else "cover_script_v1"

/-- Display name for a seeded id: `req.hints.get(id) or _pretty_from_id(id)`. -/
def seedDisplayName (req : SeedFromCoverRequest) (id : String) : String :=
  let h := (dictGet? req.hints id).getD ""
  if h ≠ "" then h else prettyFromId id

/-- Appends the cover asset unless an asset of type "cover" is already
present (the seeding loop's cover-attachment step). -/
def appendCoverIfAbsent (cover : Option ReferenceAsset)
    (assets : List ReferenceAsset) : List ReferenceAsset :=
  match cover with
  | some c => if assets.any (fun ra => ra.type = "cover") then assets else assets ++ [c]
  | none => assets

/-- Python `a or b` on strings. -/
def strOrElse (a b : String) : String := if a ≠ "" then a else b

/-- The merge branch of the character seeding loop. -/
def mergeSeedChar (req : SeedFromCoverRequest) (cid : String)
    (c : LookbookCharacter) : LookbookCharacter :=
  { c with
    display_name := strOrElse c.display_name (seedDisplayName req cid)
    visual_canon := canonFor req.notes cid c.visual_canon
    reference_assets := appendCoverIfAbsent (seedCoverRef req) c.reference_assets
    created_from := if c.created_from = "" then seedCreatedFrom req else c.created_from }

/-- The create branch of the character seeding loop. -/
def newSeedChar (req : SeedFromCoverRequest) (cid : String) : LookbookCharacter :=
  { id := cid
    display_name := seedDisplayName req cid
    role := none
    visual_canon := canonFor req.notes cid []
    reference_assets := match seedCoverRef req with | some c => [c] | none => []
    created_from := seedCreatedFrom req }

/-- Merge branch for locations and props (identical source loops, with
`name` in place of `display_name`). -/
def mergeSeedEnt (req : SeedFromCoverRequest) (eid : String)
    (e : LookbookEntity) : LookbookEntity :=
  { e with
    name := strOrElse e.name (seedDisplayName req eid)
    visual_canon := canonFor req.notes eid e.visual_canon
    reference_assets := appendCoverIfAbsent (seedCoverRef req) e.reference_assets
    created_from := if e.created_from = "" then seedCreatedFrom req else e.created_from }

/-- Create branch for locations and props. -/
def newSeedEnt (req : SeedFromCoverRequest) (eid : String) : LookbookEntity :=
  { id := eid
    name := seedDisplayName req eid
    visual_canon := canonFor req.notes eid []
    reference_assets := match seedCoverRef req with | some c => [c] | none => []
    created_from := seedCreatedFrom req }

/-- Generic create-or-merge upsert: `_get_by_id` finds the first list
element with the requested id and the loop mutates it in place,
otherwise a fresh entity is appended. The source repeats this loop for
characters, locations and props; the three instantiations below share
this definition. -/
def upsertById {α : Type} (getId : α → String) (merge : String → α → α)
    (mk : String → α) : String → List α → List α
  | cid, [] => [mk cid]
  | cid, c :: rest =>
      if getId c = cid then merge cid c :: rest
      else c :: upsertById getId merge mk cid rest

def seedStyleProfile (req : SeedFromCoverRequest)
    (sp : List (String × String)) : List (String × String) :=
  if optTruthy req.user_theme then dictSet sp "user_theme" (req.user_theme.getD "") else sp

/-- Model of `seed_from_cover`'s effect on the persisted lookbook
document (response construction, local save and GCS upload are I/O and
carry no registry content beyond this document). -/
def seed_from_cover (req : SeedFromCoverRequest) (doc : LookbookDoc) : LookbookDoc :=
  let doc := { doc with style_profile := seedStyleProfile req doc.style_profile }
  { doc with
    characters := req.initial_ids.characters.foldl
      (fun l cid => upsertById (·.id) (mergeSeedChar req) (newSeedChar req) cid l) doc.characters
    locations := req.initial_ids.locations.foldl
      (fun l lid => upsertById (·.id) (mergeSeedEnt req) (newSeedEnt req) lid l) doc.locations
    props := req.initial_ids.props.foldl
      (fun l pid => upsertById (·.id) (mergeSeedEnt req) (newSeedEnt req) pid l) doc.props }

/-! ### Dict lemmas -/

theorem dictSet_dictSet (d : List (String × String)) (k v : String) :
    dictSet (dictSet d k v) k v = dictSet d k v := by
  induction d with
  | nil => simp [dictSet]
  | cons p rest ih =>
      obtain ⟨a, b⟩ := p
      by_cases h : a = k
      · simp [dictSet, h]
      · simp [dictSet, h, ih]

theorem dictGet?_dictSet_self (d : List (String × String)) (k v : String) :
    dictGet? (dictSet d k v) k = some v := by
  induction d with
  | nil => simp [dictSet, dictGet?]
  | cons p rest ih =>
      obtain ⟨a, b⟩ := p
      by_cases h : a = k
      · simp [dictSet, h, dictGet?]
      · simp [dictSet, h, dictGet?, ih]

theorem dictHasKey_dictSet_self (d : List (String × String)) (k v : String) :
    dictHasKey (dictSet d k v) k = true := by
  simp [dictHasKey, dictGet?_dictSet_self]

theorem canonFor_idem (notes : List (String × String)) (id : String)
    (e : List (String × String)) :
    canonFor notes id (canonFor notes id e) = canonFor notes id e := by
  unfold canonFor
  by_cases h : (dictGet? notes id).getD "" ≠ ""
  · simp [h, dictSet_dictSet]
  · by_cases h2 : dictHasKey e "notes"
    · simp [h, h2]
    · simp [h, h2, dictHasKey_dictSet_self]

theorem strOrElse_left_idem (a b : String) :
    strOrElse (strOrElse a b) b = strOrElse a b := by
  unfold strOrElse
  by_cases h : a = ""
  · by_cases hb : b = "" <;> simp [h, hb]
  · simp [h]

theorem strOrElse_self (a : String) : strOrElse a a = a := by
  unfold strOrElse
  by_cases h : a = "" <;> simp [h]

theorem seedCoverRef_type (req : SeedFromCoverRequest) (c : ReferenceAsset)
    (h : seedCoverRef req = some c) : c.type = "cover" := by
  unfold seedCoverRef at h
  split at h
  · cases h; rfl
  · cases h

theorem appendCoverIfAbsent_idem (cov : Option ReferenceAsset)
    (hc : ∀ c, cov = some c → c.type = "cover") (l : List ReferenceAsset) :
    appendCoverIfAbsent cov (appendCoverIfAbsent cov l) = appendCoverIfAbsent cov l := by
  cases cov with
  | none => rfl
  | some c =>
      simp only [appendCoverIfAbsent]
      by_cases h : l.any (fun ra => ra.type = "cover")
      · simp [h]
      · simp [h, List.any_append, hc c rfl]

theorem seedCreatedFrom_ne_empty (req : SeedFromCoverRequest) :
    seedCreatedFrom req ≠ "" := by
  unfold seedCreatedFrom
  split <;> simp

theorem ite_empty_fill (scf : String) (h : scf ≠ "") (a : String) :
    (if (if a = "" then scf else a) = "" then scf else (if a = "" then scf else a))
      = if a = "" then scf else a := by
  by_cases ha : a = "" <;> simp [ha, h]

theorem mergeSeedChar_idem (req : SeedFromCoverRequest) (cid : String)
    (c : LookbookCharacter) :
    mergeSeedChar req cid (mergeSeedChar req cid c) = mergeSeedChar req cid c := by
  unfold mergeSeedChar
  simp [strOrElse_left_idem, canonFor_idem,
    appendCoverIfAbsent_idem _ (seedCoverRef_type req),
    ite_empty_fill _ (seedCreatedFrom_ne_empty req)]

theorem appendCover_to_initial (req : SeedFromCoverRequest) :
    appendCoverIfAbsent (seedCoverRef req)
        (match seedCoverRef req with | some c => [c] | none => [])
      = (match seedCoverRef req with | some c => [c] | none => ([] : List ReferenceAsset)) := by
  cases hc : seedCoverRef req with
  | none => rfl
  | some c => simp [appendCoverIfAbsent, seedCoverRef_type req c hc]

theorem mergeSeedChar_new (req : SeedFromCoverRequest) (cid : String) :
    mergeSeedChar req cid (newSeedChar req cid) = newSeedChar req cid := by
  have h4 : (if seedCreatedFrom req = "" then seedCreatedFrom req else seedCreatedFrom req)
      = seedCreatedFrom req := by split <;> rfl
  unfold mergeSeedChar newSeedChar
  simp [strOrElse_self, canonFor_idem, appendCover_to_initial, h4]

theorem mergeSeedEnt_idem (req : SeedFromCoverRequest) (eid : String)
    (e : LookbookEntity) :
    mergeSeedEnt req eid (mergeSeedEnt req eid e) = mergeSeedEnt req eid e := by
  unfold mergeSeedEnt
  simp [strOrElse_left_idem, canonFor_idem,
    appendCoverIfAbsent_idem _ (seedCoverRef_type req),
    ite_empty_fill _ (seedCreatedFrom_ne_empty req)]

theorem mergeSeedEnt_new (req : SeedFromCoverRequest) (eid : String) :
    mergeSeedEnt req eid (newSeedEnt req eid) = newSeedEnt req eid := by
  have h4 : (if seedCreatedFrom req = "" then seedCreatedFrom req else seedCreatedFrom req)
      = seedCreatedFrom req := by split <;> rfl
  unfold mergeSeedEnt newSeedEnt
  simp [strOrElse_self, canonFor_idem, appendCover_to_initial, h4]

/-! ### Generic upsert idempotence -/

section UpsertLemmas

variable {α : Type} {getId : α → String} {merge : String → α → α} {mk : String → α}

theorem upsertById_idem
    (hid : ∀ cid c, getId (merge cid c) = getId c)
    (hmkid : ∀ cid, getId (mk cid) = cid)
    (hmm : ∀ cid c, merge cid (merge cid c) = merge cid c)
    (hmn : ∀ cid, merge cid (mk cid) = mk cid)
    (cid : String) (l : List α) :
    upsertById getId merge mk cid (upsertById getId merge mk cid l)
      = upsertById getId merge mk cid l := by
  induction l with
  | nil => simp [upsertById, hmkid, hmn]
  | cons c rest ih =>
      by_cases h : getId c = cid
      · simp [upsertById, h, hid, hmm]
      · simp [upsertById, h, ih]

theorem upsertById_fixed_preserved
    (hid : ∀ cid c, getId (merge cid c) = getId c)
    (cid cid' : String) (l : List α)
    (hfix : upsertById getId merge mk cid l = l) :
    upsertById getId merge mk cid (upsertById getId merge mk cid' l)
      = upsertById getId merge mk cid' l := by
  induction l with
  | nil => simp [upsertById] at hfix
  | cons c rest ih =>
      by_cases h' : getId c = cid'
      · simp only [upsertById]
        rw [if_pos h']
        by_cases h : getId c = cid
        · have hcc : cid' = cid := by rw [← h', h]
          subst hcc
          simp only [upsertById] at hfix
          rw [if_pos h] at hfix
          have hmc : merge cid' c = c := (List.cons_eq_cons.mp hfix).1
          rw [hmc]
          simp only [upsertById]
          rw [if_pos h, hmc]
        · simp only [upsertById] at hfix
          rw [if_neg h] at hfix
          have hrest : upsertById getId merge mk cid rest = rest :=
            (List.cons_eq_cons.mp hfix).2
          simp only [upsertById]
          rw [if_neg (by rw [hid cid' c]; exact h), hrest]
      · simp only [upsertById]
        rw [if_neg h']
        by_cases h : getId c = cid
        · simp only [upsertById] at hfix
          rw [if_pos h] at hfix
          have hmc : merge cid c = c := (List.cons_eq_cons.mp hfix).1
          simp only [upsertById]
          rw [if_pos h, hmc]
        · simp only [upsertById] at hfix
          rw [if_neg h] at hfix
          have hrest : upsertById getId merge mk cid rest = rest :=
            (List.cons_eq_cons.mp hfix).2
          simp only [upsertById]
          rw [if_neg h, ih hrest]

theorem foldl_upsert_fixed
    (hid : ∀ cid c, getId (merge cid c) = getId c)
    (ids : List String) (cid : String) :
    ∀ (l : List α), upsertById getId merge mk cid l = l →
      upsertById getId merge mk cid
          (ids.foldl (fun acc i => upsertById getId merge mk i acc) l)
        = ids.foldl (fun acc i => upsertById getId merge mk i acc) l := by
  induction ids with
  | nil => intro l hfix; simpa using hfix
  | cons i rest ih =>
      intro l hfix
      simp only [List.foldl_cons]
      exact ih _ (upsertById_fixed_preserved hid cid i l hfix)

theorem foldl_upsert_idem
    (hid : ∀ cid c, getId (merge cid c) = getId c)
    (hmkid : ∀ cid, getId (mk cid) = cid)
    (hmm : ∀ cid c, merge cid (merge cid c) = merge cid c)
    (hmn : ∀ cid, merge cid (mk cid) = mk cid)
    (ids : List String) :
    ∀ (l : List α),
      ids.foldl (fun acc i => upsertById getId merge mk i acc)
          (ids.foldl (fun acc i => upsertById getId merge mk i acc) l)
        = ids.foldl (fun acc i => upsertById getId merge mk i acc) l := by
  induction ids with
  | nil => intro l; simp
  | cons i rest ih =>
      intro l
      simp only [List.foldl_cons]
      have hfix : upsertById getId merge mk i (upsertById getId merge mk i l)
          = upsertById getId merge mk i l :=
        upsertById_idem hid hmkid hmm hmn i l
      rw [foldl_upsert_fixed hid rest i _ hfix]
      exact ih _

end UpsertLemmas

/-- C4: Seeding is idempotent — running `seed_from_cover` twice with the
same request, starting from any registry document, produces exactly the
document a single run produces: no duplicate entities and no duplicate
reference-asset (in particular cover) entries are added. -/
theorem seed_from_cover_idempotent (req : SeedFromCoverRequest) (doc : LookbookDoc) :
    seed_from_cover req (seed_from_cover req doc) = seed_from_cover req doc := by
  have hc := @foldl_upsert_idem LookbookCharacter (fun x => x.id)
    (mergeSeedChar req) (newSeedChar req) (fun _ _ => rfl) (fun _ => rfl)
    (mergeSeedChar_idem req) (mergeSeedChar_new req) req.initial_ids.characters
  have hl := @foldl_upsert_idem LookbookEntity (fun x => x.id)
    (mergeSeedEnt req) (newSeedEnt req) (fun _ _ => rfl) (fun _ => rfl)
    (mergeSeedEnt_idem req) (mergeSeedEnt_new req) req.initial_ids.locations
  have hp := @foldl_upsert_idem LookbookEntity (fun x => x.id)
    (mergeSeedEnt req) (newSeedEnt req) (fun _ _ => rfl) (fun _ => rfl)
    (mergeSeedEnt_idem req) (mergeSeedEnt_new req) req.initial_ids.props
  unfold seed_from_cover seedStyleProfile
  by_cases h : optTruthy req.user_theme = true <;>
    simp [h, dictSet_dictSet, hc, hl, hp]

/-! ### Reference-asset generation (app/features/lookbook_ref_assets/service.py) -/

/-- Stable storage key used by `generate_ref_assets` for an asset:
`jobs/{job_id}/lookbook/{id}/{type}.png` — no randomness. -/
def refAssetObjectName (jobId eid t : String) : String :=
  "jobs/" ++ jobId ++ "/lookbook/" ++ eid ++ "/" ++ t ++ ".png"

/-- Replacement performed on success in `generate_ref_assets`:
`assets_list[:] = [a for a in assets_list if a.type != t]` followed by
`assets_list.append(ref)`. -/
def replaceAssetOfType (assets : List ReferenceAsset) (t : String)
    (newRef : ReferenceAsset) : List ReferenceAsset :=
  (assets.filter (fun a => a.type != t)) ++ [newRef]

/-- One `want_types`-loop body for a single type `t`: skip when the type
already exists and will not be overwritten (`force` or an explicit
per-id type request); on generation success replace the matching entry;
on generation failure leave the list untouched. -/
def genTypeStep (force explicitReq genOk : Bool) (t : String)
    (newRef : ReferenceAsset) (assets : List ReferenceAsset) : List ReferenceAsset :=
  let already := assets.any (fun a => a.type == t)
  let willOverwrite := force || explicitReq
  if already && !willOverwrite then assets
  else if genOk then replaceAssetOfType assets t newRef
  else assets

/-- N successful regenerations of the same (entity, type) pair with
`force=True`, recording the storage key computed at each iteration
(`object_name = f"jobs/{job}/lookbook/{id}/{type}.png"`). -/
def regenerateN (jobId eid t : String) (mkRef : Nat → ReferenceAsset) :
    Nat → List ReferenceAsset → List ReferenceAsset × List String
  | 0, assets => (assets, [])
  | n + 1, assets =>
      let assets' := genTypeStep true false true t (mkRef n) assets
      let res := regenerateN jobId eid t mkRef n assets'
      (res.1, refAssetObjectName jobId eid t :: res.2)

theorem replaceAssetOfType_countP (assets : List ReferenceAsset) (t : String)
    (newRef : ReferenceAsset) (h : newRef.type = t) :
    (replaceAssetOfType assets t newRef).countP (fun a => a.type == t) = 1 := by
  unfold replaceAssetOfType
  rw [List.countP_append]
  have h0 : (assets.filter (fun a => a.type != t)).countP (fun a => a.type == t) = 0 := by
    rw [List.countP_eq_zero]
    intro a ha
    have hmem := List.of_mem_filter ha
    simpa using hmem
  simp [h0, List.countP_cons, h]

theorem replaceAssetOfType_others (assets : List ReferenceAsset) (t : String)
    (newRef : ReferenceAsset) (h : newRef.type = t) :
    (replaceAssetOfType assets t newRef).filter (fun a => a.type != t)
      = assets.filter (fun a => a.type != t) := by
  unfold replaceAssetOfType
  rw [List.filter_append]
  have h1 : (assets.filter (fun a => a.type != t)).filter (fun a => a.type != t)
      = assets.filter (fun a => a.type != t) := by
    rw [List.filter_filter]
    simp
  have h2 : ([newRef].filter (fun a => a.type != t)) = [] := by
    simp [h]
  rw [h1, h2, List.append_nil]

theorem genTypeStep_force_ok (t : String) (newRef : ReferenceAsset)
    (assets : List ReferenceAsset) :
    genTypeStep true false true t newRef assets = replaceAssetOfType assets t newRef := by
  simp [genTypeStep]

/-- C5: Stable-key overwrite — after any number N ≥ 1 of forced
regenerations of the same (entity, type) pair, the reference-asset list
holds exactly one asset of that type, the assets of every other type
are untouched (replace, not append), and every regeneration used the
same deterministic storage key `jobs/{job}/lookbook/{id}/{type}.png`. -/
theorem generate_ref_assets_stable_overwrite (jobId eid t : String)
    (mkRef : Nat → ReferenceAsset) (n : Nat) (assets : List ReferenceAsset)
    (hn : 1 ≤ n) (htype : ∀ k, (mkRef k).type = t) :
    ((regenerateN jobId eid t mkRef n assets).1.countP (fun a => a.type == t) = 1)
    ∧ ((regenerateN jobId eid t mkRef n assets).1.filter (fun a => a.type != t)
        = assets.filter (fun a => a.type != t))
    ∧ (regenerateN jobId eid t mkRef n assets).2
        = List.replicate n (refAssetObjectName jobId eid t) := by
  induction n generalizing assets with
  | zero => omega
  | succ m ih =>
      cases Nat.eq_zero_or_pos m with
      | inl hm =>
          subst hm
          simp only [regenerateN, genTypeStep_force_ok]
          exact ⟨replaceAssetOfType_countP assets t (mkRef 0) (htype 0),
            replaceAssetOfType_others assets t (mkRef 0) (htype 0), rfl⟩
      | inr hm =>
          have hstep := genTypeStep_force_ok t (mkRef m) assets
          have h1 := ih (genTypeStep true false true t (mkRef m) assets) hm
          simp only [regenerateN]
          refine ⟨h1.1, ?_, ?_⟩
          · rw [h1.2.1, hstep, replaceAssetOfType_others assets t (mkRef m) (htype m)]
          · rw [h1.2.2]
            rfl

def exC5Ref : ReferenceAsset := { type := "portrait", url := some "u", gs_uri := some "g" }

def exC5Assets : List ReferenceAsset :=
  [{ type := "portrait", url := some "u0", gs_uri := none },
   { type := "cover", url := none, gs_uri := some "gc" }]

/-- C5 witness: three forced regenerations over a list that starts with
a portrait and a cover leave exactly one portrait. -/
theorem generate_ref_assets_stable_overwrite_witness :
    (1 ≤ 3 ∧ (∀ k : Nat, ((fun (_ : Nat) => exC5Ref) k).type = "portrait"))
    ∧ ((regenerateN "job1" "char_a" "portrait" (fun _ => exC5Ref) 3 exC5Assets).1.countP
        (fun a => a.type == "portrait") = 1) := by
  refine ⟨⟨by decide, fun _ => rfl⟩, ?_⟩
  exact (generate_ref_assets_stable_overwrite "job1" "char_a" "portrait"
    (fun _ => exC5Ref) 3 exC5Assets (by decide) (fun _ => rfl)).1

/-! ### Script model (app/features/full_script/schemas.py)

`location_id` may be `None` or `""` in the source; both are falsy at
every use site (`if page.location_id:`), so it is modelled as a
`String` with `""` for the absent case. -/

structure Panel where
  panel_number : Nat
  art_description : String := ""
  dialogue : String := ""
  narration : String := ""
  sfx : String := ""
  characters : List String := []
  props : List String := []
  location_id : String := ""
deriving DecidableEq, Repr

structure Page where
  page_number : Nat
  panels : List Panel
  location_id : String := ""
  characters : List String := []
  props : List String := []
deriving DecidableEq, Repr

structure CharacterToAdd where
  id : String
  display_name : String
  role : String := ""
  visual_stub : String
  needs_concept_sheet : Bool := true
deriving DecidableEq, Repr

/-- Model for `LocationToAdd` and `PropToAdd` (identical fields). -/
structure EntityToAdd where
  id : String
  name : String
  visual_stub : String := ""
  needs_concept_sheet : Bool := true
deriving DecidableEq, Repr

structure LookbookDelta where
  characters_to_add : List CharacterToAdd := []
  locations_to_add : List EntityToAdd := []
  props_to_add : List EntityToAdd := []
deriving DecidableEq, Repr

structure FullScriptPagesResponse where
  pages : List Page
  lookbook_delta : LookbookDelta := {}
deriving DecidableEq, Repr

/-! ### Usage audit and delta pruning (app/features/full_script/service.py) -/

/-- Panel-level usage count of a character id: one bump per occurrence
in a panel's `characters` list (page-level mentions do not count here). -/
def charPanelCount (pages : List Page) (cid : String) : Nat :=
  (pages.map (fun pg => (pg.panels.map (fun pn => pn.characters.count cid)).sum)).sum

def propPanelCount (pages : List Page) (pid : String) : Nat :=
  (pages.map (fun pg => (pg.panels.map (fun pn => pn.props.count pid)).sum)).sum

/-- Pages whose truthy page-level `location_id` equals `lid`. -/
def locPageCount (pages : List Page) (lid : String) : Nat :=
  pages.countP (fun pg => pg.location_id != "" && pg.location_id == lid)

def locPanelCount (pages : List Page) (lid : String) : Nat :=
  (pages.map (fun pg =>
    pg.panels.countP (fun pn => pn.location_id != "" && pn.location_id == lid))).sum

/-- Model of `_prune_unused_from_delta`: characters and props need at
least 2 panel uses, locations at least 1 page-level use or 2 panel
references. -/
def pruneUnusedFromDelta (script : FullScriptPagesResponse) : FullScriptPagesResponse :=
  { script with
    lookbook_delta :=
      { characters_to_add := script.lookbook_delta.characters_to_add.filter
          (fun c => decide (2 ≤ charPanelCount script.pages c.id))
        props_to_add := script.lookbook_delta.props_to_add.filter
          (fun p => decide (2 ≤ propPanelCount script.pages p.id))
        locations_to_add := script.lookbook_delta.locations_to_add.filter
          (fun l => decide (1 ≤ locPageCount script.pages l.id)
            || decide (2 ≤ locPanelCount script.pages l.id)) } }

structure KnownIds where
  characters : List String := []
  locations : List String := []
  props : List String := []
deriving DecidableEq, Repr

def usedCharIds (pages : List Page) : List String :=
  (pages.map (fun pg => (pg.panels.map (fun pn => pn.characters)).flatten)).flatten

def usedPropIds (pages : List Page) : List String :=
  (pages.map (fun pg => (pg.panels.map (fun pn => pn.props)).flatten)).flatten

def usedLocIds (pages : List Page) : List String :=
  ((pages.filter (fun pg => pg.location_id != "")).map (fun pg => pg.location_id))
  ++ (pages.map (fun pg =>
        (pg.panels.filter (fun pn => pn.location_id != "")).map
          (fun pn => pn.location_id))).flatten

/-- Model of `_audit_usage`'s overall verdict (`issues == []`): no
unknown ids used, every delta id meets its usage threshold, and the NEW
minima are reached. -/
def auditOk (script : FullScriptPagesResponse) (known : KnownIds)
    (cmin lmin pmin : Nat) : Bool :=
  let newChars := script.lookbook_delta.characters_to_add.map (fun c => c.id)
  let newLocs := script.lookbook_delta.locations_to_add.map (fun l => l.id)
  let newProps := script.lookbook_delta.props_to_add.map (fun p => p.id)
  (usedCharIds script.pages).all (fun c => (known.characters ++ newChars).contains c)
  && (usedLocIds script.pages).all (fun l => (known.locations ++ newLocs).contains l)
  && (usedPropIds script.pages).all (fun p => (known.props ++ newProps).contains p)
  && newChars.all (fun c => decide (2 ≤ charPanelCount script.pages c))
  && newProps.all (fun p => decide (2 ≤ propPanelCount script.pages p))
  && newLocs.all (fun l => decide (1 ≤ locPageCount script.pages l)
        || decide (2 ≤ locPanelCount script.pages l))
  && decide (cmin ≤ newChars.length)
  && decide (lmin ≤ newLocs.length)
  && decide (pmin ≤ newProps.length)

/-- Model of `_targets_for_pages` (NEW minima/maxima per page count). -/
def targetsForPages (pages : Nat) : (Nat × Nat) × (Nat × Nat) × (Nat × Nat) :=
  if pages < 6 then ((0, 1), (0, 1), (0, 2))
  else if pages ≤ 15 then ((2, 3), (2, 3), (1, 3))
  else if pages ≤ 20 then ((2, 3), (2, 3), (2, 3))
  else ((2, 3), (2, 3), (2, 5))

def requiredNewCounts (page_count : Nat) : Nat × Nat × Nat :=
  ((targetsForPages page_count).1.1,
   (targetsForPages page_count).2.1.1,
   (targetsForPages page_count).2.2.1)

/-- Post-LLM control flow of `generate_full_script`: keep the script if
the audit passes; otherwise use a repaired script when the repair call
succeeded (pruning it if its audit still fails), or prune the original
when the repair call raised. `repaired = none` models the repair call
raising an exception. -/
def generateFullScriptResult (script : FullScriptPagesResponse)
    (repaired : Option FullScriptPagesResponse) (known : KnownIds)
    (cmin lmin pmin : Nat) : FullScriptPagesResponse :=
  if auditOk script known cmin lmin pmin then script
  else
    match repaired with
    | some rep =>
        if auditOk rep known cmin lmin pmin then rep else pruneUnusedFromDelta rep
    | none => pruneUnusedFromDelta script

/-- C6's claim as stated: an id appears in the finally returned delta
IF AND ONLY IF its usage in that script meets the threshold for its
kind. -/
def thresholdExactnessIff (fin : FullScriptPagesResponse) : Prop :=
  (∀ cid, 2 ≤ charPanelCount fin.pages cid
    ↔ cid ∈ fin.lookbook_delta.characters_to_add.map (fun c => c.id))
  ∧ (∀ pid, 2 ≤ propPanelCount fin.pages pid
    ↔ pid ∈ fin.lookbook_delta.props_to_add.map (fun p => p.id))
  ∧ (∀ lid, (1 ≤ locPageCount fin.pages lid ∨ 2 ≤ locPanelCount fin.pages lid)
    ↔ lid ∈ fin.lookbook_delta.locations_to_add.map (fun l => l.id))

def exC6Panel (k : Nat) : Panel :=
  { panel_number := k, art_description := "hero speaks", characters := ["char_hero"] }

/-- A 1-page script that uses the already-known character `char_hero`
in two panels and declares no new entities. -/
def exC6Script : FullScriptPagesResponse :=
  { pages := [{ page_number := 1, panels := [exC6Panel 1, exC6Panel 2] }] }

def exC6Known : KnownIds := { characters := ["char_hero"] }

/-- C6 counterexample: with one page (minima (0,0,0)), the audit
passes and the returned delta is empty although `char_hero` has 2 panel
uses — an id meeting the threshold is absent from the delta, so the
"if and only if" fails. -/
theorem threshold_exactness_counterexample :
    ¬ thresholdExactnessIff
        (generateFullScriptResult exC6Script none exC6Known
          (requiredNewCounts 1).1 (requiredNewCounts 1).2.1 (requiredNewCounts 1).2.2) := by
  intro h
  have h2 := (h.1 "char_hero").mp (by decide)
  revert h2
  decide

theorem auditOk_thresholds (s : FullScriptPagesResponse) (k : KnownIds)
    (cmin lmin pmin : Nat) (h : auditOk s k cmin lmin pmin = true) :
    (∀ c ∈ s.lookbook_delta.characters_to_add, 2 ≤ charPanelCount s.pages c.id)
    ∧ (∀ p ∈ s.lookbook_delta.props_to_add, 2 ≤ propPanelCount s.pages p.id)
    ∧ (∀ l ∈ s.lookbook_delta.locations_to_add,
        1 ≤ locPageCount s.pages l.id ∨ 2 ≤ locPanelCount s.pages l.id) := by
  unfold auditOk at h
  simp only [Bool.and_eq_true, List.all_eq_true, List.mem_map] at h
  obtain ⟨⟨⟨⟨⟨⟨⟨⟨_, _⟩, _⟩, hc⟩, hp⟩, hl⟩, _⟩, _⟩, _⟩ := h
  refine ⟨?_, ?_, ?_⟩
  · intro c hc'
    have := hc c.id ⟨c, hc', rfl⟩
    simpa using this
  · intro p hp'
    have := hp p.id ⟨p, hp', rfl⟩
    simpa using this
  · intro l hl'
    have := hl l.id ⟨l, hl', rfl⟩
    rcases (Bool.or_eq_true _ _).mp this with h1 | h1
    · exact Or.inl (by simpa using h1)
    · exact Or.inr (by simpa using h1)

theorem prune_thresholds (s : FullScriptPagesResponse) :
    (∀ c ∈ (pruneUnusedFromDelta s).lookbook_delta.characters_to_add,
        2 ≤ charPanelCount (pruneUnusedFromDelta s).pages c.id)
    ∧ (∀ p ∈ (pruneUnusedFromDelta s).lookbook_delta.props_to_add,
        2 ≤ propPanelCount (pruneUnusedFromDelta s).pages p.id)
    ∧ (∀ l ∈ (pruneUnusedFromDelta s).lookbook_delta.locations_to_add,
        1 ≤ locPageCount (pruneUnusedFromDelta s).pages l.id
          ∨ 2 ≤ locPanelCount (pruneUnusedFromDelta s).pages l.id) := by
  refine ⟨?_, ?_, ?_⟩
  · intro c hc
    have := List.of_mem_filter hc
    simpa using this
  · intro p hp
    have := List.of_mem_filter hp
    simpa using this
  · intro l hl
    have := List.of_mem_filter hl
    rcases (Bool.or_eq_true _ _).mp this with h1 | h1
    · exact Or.inl (by simpa using h1)
    · exact Or.inr (by simpa using h1)

/-- C6 (amended): in the finally returned script, every id in the delta
meets the usage threshold for its kind — ids below threshold never
appear. (The converse fails; see the counterexample.) -/
theorem final_delta_meets_thresholds (script : FullScriptPagesResponse)
    (repaired : Option FullScriptPagesResponse) (known : KnownIds)
    (cmin lmin pmin : Nat) :
    (∀ c ∈ (generateFullScriptResult script repaired known cmin lmin pmin)
        |>.lookbook_delta.characters_to_add,
      2 ≤ charPanelCount (generateFullScriptResult script repaired known cmin lmin pmin).pages c.id)
    ∧ (∀ p ∈ (generateFullScriptResult script repaired known cmin lmin pmin)
        |>.lookbook_delta.props_to_add,
      2 ≤ propPanelCount (generateFullScriptResult script repaired known cmin lmin pmin).pages p.id)
    ∧ (∀ l ∈ (generateFullScriptResult script repaired known cmin lmin pmin)
        |>.lookbook_delta.locations_to_add,
      1 ≤ locPageCount (generateFullScriptResult script repaired known cmin lmin pmin).pages l.id
        ∨ 2 ≤ locPanelCount (generateFullScriptResult script repaired known cmin lmin pmin).pages l.id) := by
  unfold generateFullScriptResult
  by_cases h : auditOk script known cmin lmin pmin = true
  · simp only [h, if_pos]
    exact auditOk_thresholds script known cmin lmin pmin h
  · simp only [h, if_neg, Bool.not_eq_true]
    cases repaired with
    | none => simpa using prune_thresholds script
    | some rep =>
        by_cases h2 : auditOk rep known cmin lmin pmin = true
        · simp only [h2, if_pos]
          simpa [h] using auditOk_thresholds rep known cmin lmin pmin h2
        · simp only [h2, if_neg, Bool.not_eq_true]
          simpa [h, h2] using prune_thresholds rep

/-! ### Job manifest (app/lib/jobs.py)

A manifest is a JSON document `{"pages": {...}, "final": ..., and
optionally "cancelled", "task_name"}`. Page entries are open dicts; the
fields below are the keys the pages feature actually writes
(`prompt_chars`, `panel_cast`, `refs_used`, `prev_context` and
`ref_paths_resolved` are prompt diagnostics and are not modelled). -/

inductive FinalState where
  | uploaded (mime : String) (gcsInfo : String)
  | localFallback (mime : String) (localPath : String) (uploadError : String)
  | cancelledMarker
deriving DecidableEq, Repr

structure PageEntry where
  status : String := ""
  attempts : Option Nat := none
  local_path : Option String := none
  uploaded : Option Bool := none
  upload_error : Option String := none
  gcs : Option String := none
  last_error : Option String := none
  blocked_ids : Option (List String) := none
  blocked_reasons : Option (List (String × String)) := none
  prev_ref : Option String := none
  ids_used : Option (List String) := none
  used_ref_paths : Option (List String) := none
deriving DecidableEq, Repr

structure Manifest where
  pages : List (Nat × PageEntry) := []
  final : Option FinalState := none
  cancelled : Bool := false
  task_name : Option String := none
deriving DecidableEq, Repr

def Manifest.getPage (m : Manifest) (n : Nat) : Option PageEntry :=
  (m.pages.find? (fun kv => kv.1 == n)).map (fun kv => kv.2)

/-- Model of `mark_page_status`'s `pages.setdefault(str(n), {})` plus
in-place `update`: the first entry keyed `n` is updated, else a fresh
entry is appended. -/
def setPageEntry : List (Nat × PageEntry) → Nat → (PageEntry → PageEntry)
    → List (Nat × PageEntry)
  | [], n, f => [(n, f {})]
  | (k, e) :: rest, n, f =>
      if k = n then (k, f e) :: rest else (k, e) :: setPageEntry rest n f

def markPage (m : Manifest) (n : Nat) (f : PageEntry → PageEntry) : Manifest :=
  { m with pages := setPageEntry m.pages n f }

/-- Model of `seed_manifest_pending`: a fresh manifest whose pages 1..N
are all `pending` and whose `final` is null. -/
def seedManifestPending (total_pages : Nat) : Manifest :=
  { pages := (List.range total_pages).map (fun i => (i + 1, { status := "pending" }))
    final := none }

def setCancelled (m : Manifest) (c : Bool) : Manifest := { m with cancelled := c }

def setTaskName (m : Manifest) (t : String) : Manifest := { m with task_name := some t }

/-! ### Chained page renderer (app/features/pages/service.py) -/

inductive EntityKind where
  | character
  | location
  | prop
deriving DecidableEq, Repr

structure IndexedEntity where
  kind : EntityKind
  id : String
  displayName : String
  refs : List ReferenceAsset
deriving DecidableEq, Repr

/-- Model of `_index_lookbook`'s id dict: characters inserted first,
then locations, then props, later writes overwriting earlier ones, so
lookup precedence is props, locations, characters and the last
occurrence inside a list wins. The display name mirrors the slice's
`display_name or name or id` chain. -/
def indexLookup (doc : LookbookDoc) (id : String) : Option IndexedEntity :=
  match doc.props.foldl (fun acc p => if p.id = id then some p else acc) none with
  | some p => some ⟨.prop, p.id, strOrElse p.name id, p.reference_assets⟩
  | none =>
    match doc.locations.foldl (fun acc l => if l.id = id then some l else acc) none with
    | some l => some ⟨.location, l.id, strOrElse l.name id, l.reference_assets⟩
    | none =>
      match doc.characters.foldl (fun acc c => if c.id = id then some c else acc) none with
      | some c => some ⟨.character, c.id, strOrElse c.display_name id, c.reference_assets⟩
      | none => none

/-- Set-insertion of a truthy id, as in `_collect_page_ids` (Python
sets modelled as insertion-ordered duplicate-free lists). -/
def addPageId (acc : List String) (s : String) : List String :=
  if s = "" then acc else if s ∈ acc then acc else acc ++ [s]

def collectPageIds (page : Page) : List String :=
  let acc := addPageId [] page.location_id
  let acc := page.characters.foldl addPageId acc
  let acc := page.props.foldl addPageId acc
  page.panels.foldl (fun acc pn =>
    let acc := pn.characters.foldl addPageId acc
    let acc := addPageId acc pn.location_id
    pn.props.foldl addPageId acc) acc

def insertStr (s : String) : List String → List String
  | [] => [s]
  | t :: ts => if s ≤ t then s :: t :: ts else t :: insertStr s ts

def sortStrs (l : List String) : List String := l.foldr insertStr []

/-- Oracle for the renderer's external effects: the manifest
`cancelled` flag as read from disk at the top of each page iteration
(a concurrent stop request may set it), the outcome of
`generate_ref_assets` plus lookbook reload for a page (`none` = the
call raised), local resolution of a reference asset to a cached file
path, per-(page, attempt) generation outcomes, and per-page upload
outcomes. -/
structure RenderEnv where
  cancelledAt : Nat → Bool
  refGen : Nat → Option LookbookDoc
  resolvePath : ReferenceAsset → Option String
  genOk : Nat → Nat → Bool
  genErr : Nat → Nat → String
  uploadOk : Nat → Bool
  uploadErr : Nat → String
  gcsInfo : Nat → String

/-- Model of `_ensure_ref_assets_for_ids`: ids absent from the index
are `not_found_in_lookbook`; ids with no reference assets trigger one
`generate_ref_assets` call; if that call raises they get
`ref_assets_generation_failed`; a final verification pass re-checks the
(possibly reloaded) lookbook and overwrites with
`no_reference_assets`. -/
def ensureRefAssetsForIds (env : RenderEnv) (pno : Nat) (doc : LookbookDoc)
    (ids : List String) : LookbookDoc × List (String × String) :=
  let m0 := (ids.filter (fun i => (indexLookup doc i).isNone)).map
    (fun i => (i, "not_found_in_lookbook"))
  let needGen := ids.filter (fun i =>
    match indexLookup doc i with
    | some e => e.refs.isEmpty
    | none => false)
  let docm1 : LookbookDoc × List (String × String) :=
    if needGen.isEmpty then (doc, m0)
    else
      match env.refGen pno with
      | some d => (d, m0)
      | none => (doc, needGen.foldl (fun m i => dictSet m i "ref_assets_generation_failed") m0)
  let m2 := ids.foldl (fun m i =>
    match indexLookup docm1.1 i with
    | some e => if e.refs.isEmpty then dictSet m i "no_reference_assets" else m
    | none => m) docm1.2
  (docm1.1, m2)

structure SliceEntry where
  id : String
  displayName : String
  refs : List ReferenceAsset
deriving DecidableEq, Repr

structure LookbookSlice where
  characters : List SliceEntry := []
  locations : List SliceEntry := []
  props : List SliceEntry := []
deriving DecidableEq, Repr

/-- Model of `_build_lookbook_slice` (reference assets capped at 3 per
entity; prompt-only fields omitted). -/
def buildLookbookSlice (doc : LookbookDoc) (ids : List String) : LookbookSlice :=
  ids.foldl (fun s id =>
    match indexLookup doc id with
    | none => s
    | some e =>
        let entry : SliceEntry := ⟨e.id, e.displayName, e.refs.take 3⟩
        match e.kind with
        | .character => { s with characters := s.characters ++ [entry] }
        | .location => { s with locations := s.locations ++ [entry] }
        | .prop => { s with props := s.props ++ [entry] }) {}

def dedupPaths (l : List String) : List String :=
  l.foldl (fun acc p => if p ∈ acc then acc else acc ++ [p]) []

/-- Model of `_collect_ref_paths_for_slice`: characters then locations
then props, at most 2 resolved reference files per entity,
de-duplicated by path, capped at 10 in total. The textual
ordered-block it also returns is prompt content and is not modelled. -/
def collectRefPathsForSlice (env : RenderEnv) (slice : LookbookSlice) : List String :=
  let cands := (slice.characters ++ slice.locations ++ slice.props).flatMap
    (fun e => (e.refs.take 2).filterMap env.resolvePath)
  (dedupPaths cands).take 10

/-- One generation request issued to `client.images.edit`, with the
local file paths passed as the `image` argument. -/
structure GenCall where
  page : Nat
  attempt : Nat
  images : List String
deriving DecidableEq, Repr

/-- Job-local mutable world: the manifest file, which page image files
exist on disk (`page-{n}.png`, tracked by page number), the generation
calls issued so far, the renderer's `results` accumulator and its
`prev_ref` variable. -/
structure JobState where
  manifest : Manifest
  files : List Nat := []
  calls : List GenCall := []
  results : List String := []
  prevRef : String := ""
deriving DecidableEq, Repr

def pageFilePath (workdir : String) (n : Nat) : String :=
  workdir ++ "/page-" ++ toString n ++ ".png"

def insertFile (n : Nat) (files : List Nat) : List Nat :=
  if n ∈ files then files else files ++ [n]

def renderRetries : Nat := 3

def markRunningStart (prevRef : String) (ids : List String) (e : PageEntry) : PageEntry :=
  { e with status := "running", prev_ref := some prevRef, ids_used := some ids }

def markRunningAttempt (a : Nat) (e : PageEntry) : PageEntry :=
  { e with status := "running", attempts := some a }

def markRenderedEntry (a : Nat) (localPath : String) (refPaths : List String)
    (e : PageEntry) : PageEntry :=
  { e with
    status := "rendered"
    attempts := some a
    local_path := some localPath
    used_ref_paths := some refPaths }

def markDoneEntry (a : Nat) (info localPath : String) (e : PageEntry) : PageEntry :=
  { e with
    status := "done"
    attempts := some a
    uploaded := some true
    gcs := some info
    local_path := some localPath }

def markUploadFailedEntry (a : Nat) (err localPath : String) (e : PageEntry) : PageEntry :=
  { e with
    status := "rendered"
    attempts := some a
    uploaded := some false
    upload_error := some err
    local_path := some localPath }

def markFailedEntry (err : String) (e : PageEntry) : PageEntry :=
  { e with status := "failed", last_error := some err }

def markBlockedEntry (ids : List String) (reasons : List (String × String))
    (e : PageEntry) : PageEntry :=
  { e with
    status := "blocked_missing_refs"
    blocked_ids := some ids
    blocked_reasons := some reasons }

def JobState.withManifest (st : JobState) (m : Manifest) : JobState :=
  { st with manifest := m }

/-- State after the top of one retry iteration: the `running` mark with
the attempt counter, and the generation call issued with
`image_paths_to_send` — which the source sets to the lookbook reference
paths only (`image_paths_to_send = lookbook_ref_paths`). -/
def attemptBase (pno : Nat) (refPaths : List String) (a : Nat) (st : JobState) : JobState :=
  { manifest := markPage st.manifest pno (markRunningAttempt a)
    files := st.files
    calls := st.calls ++ [⟨pno, a, refPaths⟩]
    results := st.results
    prevRef := st.prevRef }

/-- State after a successful generation attempt: the page file is
written atomically (tmp + rename), the page is marked `rendered`, then
— when a GCS destination exists — uploaded (`done` on success, back to
`rendered` with `uploaded=False` and the error on failure); the file
path is appended to `results` and becomes `prev_ref`. -/
def attemptSuccess (env : RenderEnv) (gcsPre : Option String) (workdir : String)
    (pno : Nat) (refPaths : List String) (a : Nat) (st : JobState) : JobState :=
  let fname := pageFilePath workdir pno
  let m1 := markPage st.manifest pno (markRenderedEntry a fname refPaths)
  let m2 :=
    match gcsPre with
    | some _ =>
        if env.uploadOk pno then markPage m1 pno (markDoneEntry a (env.gcsInfo pno) fname)
        else markPage m1 pno (markUploadFailedEntry a (env.uploadErr pno) fname)
    | none => m1
  { manifest := m2
    files := insertFile pno st.files
    calls := st.calls
    results := st.results ++ [fname]
    prevRef := fname }

/-- The bounded retry loop (`for attempt in range(1, retries + 1)`):
each attempt marks `running` and issues a generation call; the loop
breaks on the first success and otherwise retries after a backoff
sleep (timing not modelled). -/
def runAttempts (env : RenderEnv) (gcsPre : Option String) (workdir : String)
    (pno : Nat) (refPaths : List String) : List Nat → JobState → JobState
  | [], st => st
  | a :: rest, st =>
      if env.genOk pno a then
        attemptSuccess env gcsPre workdir pno refPaths a (attemptBase pno refPaths a st)
      else
        runAttempts env gcsPre workdir pno refPaths rest (attemptBase pno refPaths a st)

/-- The per-page loop of `render_pages_chained`: check the cancelled
flag, collect the page's ids, ensure reference assets (blocking the
chain when any id stays unresolved), build the slice and the resolved
reference paths, mark `running`, run the bounded retry loop, and mark
`failed` and stop when no page file exists afterwards. -/
def renderGo (env : RenderEnv) (gcsPre : Option String) (workdir : String) :
    List Page → Nat → LookbookDoc → JobState → JobState
  | [], _, _, st => st
  | page :: rest, pno, doc, st =>
      if env.cancelledAt pno then st
      else
        let ids := collectPageIds page
        let em := ensureRefAssetsForIds env pno doc ids
        if em.2 ≠ [] then
          st.withManifest (markPage st.manifest pno
            (markBlockedEntry (sortStrs (em.2.map (fun kv => kv.1))) em.2))
        else
          let slice := buildLookbookSlice em.1 ids
          let refPaths := collectRefPathsForSlice env slice
          let st := st.withManifest
            (markPage st.manifest pno (markRunningStart st.prevRef (sortStrs ids)))
          let st := runAttempts env gcsPre workdir pno refPaths (List.range' 1 renderRetries) st
          if pno ∈ st.files then renderGo env gcsPre workdir rest (pno + 1) em.1 st
          else st.withManifest
            (markPage st.manifest pno (markFailedEntry (env.genErr pno renderRetries)))

/-- Model of `render_pages_chained`: if the lookbook fails to load the
function returns with no work done; otherwise the chain starts at page
1 with `prev_ref` set to the cover reference. -/
def renderPagesChained (env : RenderEnv) (pages : List Page) (workdir coverRef : String)
    (gcsPre : Option String) (lb : Option LookbookDoc) (st : JobState) : JobState :=
  match lb with
  | none => st
  | some doc => renderGo env gcsPre workdir pages 1 doc { st with prevRef := coverRef }

/-! ### Job driver (app/features/pages/router.py) -/

structure ComicRequest where
  job_id : String
  comic_title : String := ""
  style : String := ""
  pages : List Page := []
  return_pdf : Bool := false
deriving DecidableEq, Repr

structure WorkerEnv extends RenderEnv where
  coverOk : Bool
  finalUploadOk : Bool
  finalUploadErr : String
  finalGcsInfo : String
  prunePagesAfterFinal : Bool

def finalMime (req : ComicRequest) : String :=
  if req.return_pdf then "application/pdf" else "application/zip"

def finalLocalPath (req : ComicRequest) (workdir : String) : String :=
  if req.return_pdf then workdir ++ "/comic.pdf" else workdir ++ "/pages.zip"

/-- Model of `worker_process` (the Cloud Tasks target): ack immediately
when the manifest is cancelled or the cover reference cannot be
resolved; otherwise run the chained renderer, then — if every page file
`page-{i}.png` exists and the manifest loaded at delivery start had
`final == None` — package, upload (falling back to a local-path record
with the upload error) and save. The final `save_manifest(mf_path, mf)`
writes the dict loaded BEFORE rendering (plus `final`), so the page
statuses written during the render are clobbered back to their
pre-delivery values in the persisted manifest. -/
def workerProcess (env : WorkerEnv) (req : ComicRequest) (workdir coverRef : String)
    (lb : Option LookbookDoc) (st : JobState) : JobState :=
  if st.manifest.cancelled then st
  else if !env.coverOk then st
  else
    let st1 := renderPagesChained env.toRenderEnv req.pages workdir coverRef
      (some ("jobs/" ++ req.job_id)) lb st
    let total := req.pages.length
    let allLocal := (List.range total).all (fun i => decide ((i + 1) ∈ st1.files))
    if allLocal && decide (st.manifest.final = none) then
      let fin :=
        if env.finalUploadOk then FinalState.uploaded (finalMime req) env.finalGcsInfo
        else FinalState.localFallback (finalMime req) (finalLocalPath req workdir)
          env.finalUploadErr
      let st2 := st1.withManifest { st.manifest with final := some fin }
      if env.prunePagesAfterFinal then { st2 with files := [] } else st2
    else st1

/-- Model of `enqueue_comic_job`'s effect on an existing job's
manifest: if already cancelled the endpoint just acks; otherwise
`seed_manifest_pending` rewrites the whole manifest to pending pages
1..N with `final = None`, and `set_task_name` then records the new
Cloud Task handle. -/
def enqueueComicJob (m : Manifest) (totalPages : Nat) (taskName : String) : Manifest :=
  if m.cancelled then m
  else setTaskName (seedManifestPending totalPages) taskName

/-- Model of `stop_comic_job`'s net effect on the persisted manifest:
the endpoint loads the manifest, calls `set_cancelled(mf_path, True)`
(a separate read-modify-write), then sets `mf["final"] =
{"status": "cancelled"}` on its PRE-cancel in-memory copy and saves it,
so the file it leaves behind carries the original `cancelled` value
plus the cancelled final marker. -/
def stopComicJob (m : Manifest) : Manifest :=
  { m with final := some FinalState.cancelledMarker }

/-! ### Manifest frame lemmas -/

theorem markPage_final (m : Manifest) (n : Nat) (f : PageEntry → PageEntry) :
    (markPage m n f).final = m.final := rfl

theorem markPage_cancelled (m : Manifest) (n : Nat) (f : PageEntry → PageEntry) :
    (markPage m n f).cancelled = m.cancelled := rfl

theorem find?_setPageEntry_ne (l : List (Nat × PageEntry)) (n q : Nat)
    (f : PageEntry → PageEntry) (h : q ≠ n) :
    (setPageEntry l n f).find? (fun kv => kv.1 == q) = l.find? (fun kv => kv.1 == q) := by
  induction l with
  | nil =>
      have hnq : (n == q) = false := by
        simp only [beq_eq_false_iff_ne]
        exact Ne.symm h
      simp [setPageEntry, List.find?, hnq]
  | cons kv rest ih =>
      obtain ⟨k, e⟩ := kv
      by_cases hk : k = n
      · subst hk
        have hkq : (k == q) = false := by
          simp only [beq_eq_false_iff_ne]
          exact Ne.symm h
        simp [setPageEntry, List.find?, hkq]
      · by_cases hkq : k = q
        · subst hkq
          simp [setPageEntry, if_neg hk, List.find?]
        · have hkq' : (k == q) = false := by simp [hkq]
          simp only [setPageEntry, if_neg hk, List.find?, hkq']
          exact ih

theorem find?_setPageEntry_self (l : List (Nat × PageEntry)) (n : Nat)
    (f : PageEntry → PageEntry) :
    ((setPageEntry l n f).find? (fun kv => kv.1 == n)).map (fun kv => kv.2)
      = some (f (((l.find? (fun kv => kv.1 == n)).map (fun kv => kv.2)).getD {})) := by
  induction l with
  | nil => simp [setPageEntry, List.find?]
  | cons kv rest ih =>
      obtain ⟨k, e⟩ := kv
      by_cases hk : k = n
      · subst hk
        simp [setPageEntry, List.find?]
      · have hk' : (k == n) = false := by simp [hk]
        simp only [setPageEntry, if_neg hk, List.find?, hk']
        exact ih

theorem getPage_markPage_ne (m : Manifest) (n q : Nat) (f : PageEntry → PageEntry)
    (h : q ≠ n) : (markPage m n f).getPage q = m.getPage q := by
  unfold markPage Manifest.getPage
  simp only
  rw [find?_setPageEntry_ne m.pages n q f h]

theorem getPage_markPage_self (m : Manifest) (n : Nat) (f : PageEntry → PageEntry) :
    (markPage m n f).getPage n = some (f (((m.getPage n)).getD {})) := by
  unfold markPage Manifest.getPage
  exact find?_setPageEntry_self m.pages n f

/-! ### Retry-loop lemmas -/

theorem mem_insertFile (n q : Nat) (files : List Nat) :
    q ∈ insertFile n files ↔ q ∈ files ∨ q = n := by
  unfold insertFile
  by_cases h : n ∈ files
  · simp only [if_pos h]
    constructor
    · exact Or.inl
    · rintro (hq | rfl)
      · exact hq
      · exact h
  · simp [if_neg h, or_comm]

theorem attemptSuccess_final (env : RenderEnv) (gcsPre : Option String)
    (workdir : String) (pno : Nat) (refPaths : List String) (a : Nat) (st : JobState) :
    (attemptSuccess env gcsPre workdir pno refPaths a st).manifest.final
      = st.manifest.final := by
  unfold attemptSuccess
  cases gcsPre with
  | none => rfl
  | some g => by_cases hu : env.uploadOk pno = true <;> simp [hu, markPage_final]

theorem attemptSuccess_getPage_ne (env : RenderEnv) (gcsPre : Option String)
    (workdir : String) (pno : Nat) (refPaths : List String) (a : Nat) (st : JobState)
    (q : Nat) (hq : q ≠ pno) :
    (attemptSuccess env gcsPre workdir pno refPaths a st).manifest.getPage q
      = st.manifest.getPage q := by
  unfold attemptSuccess
  cases gcsPre with
  | none => simp [getPage_markPage_ne _ _ _ _ hq]
  | some g =>
      by_cases hu : env.uploadOk pno = true <;>
        simp [hu, getPage_markPage_ne _ _ _ _ hq]

theorem runAttempts_final (env : RenderEnv) (gcsPre : Option String) (workdir : String)
    (pno : Nat) (refPaths : List String) (attempts : List Nat) (st : JobState) :
    (runAttempts env gcsPre workdir pno refPaths attempts st).manifest.final
      = st.manifest.final := by
  induction attempts generalizing st with
  | nil => rfl
  | cons a rest ih =>
      simp only [runAttempts]
      by_cases hg : env.genOk pno a = true
      · rw [if_pos hg, attemptSuccess_final]
        rfl
      · rw [if_neg hg, ih]
        rfl

theorem runAttempts_getPage_ne (env : RenderEnv) (gcsPre : Option String)
    (workdir : String) (pno : Nat) (refPaths : List String) (attempts : List Nat)
    (st : JobState) (q : Nat) (hq : q ≠ pno) :
    (runAttempts env gcsPre workdir pno refPaths attempts st).manifest.getPage q
      = st.manifest.getPage q := by
  induction attempts generalizing st with
  | nil => rfl
  | cons a rest ih =>
      simp only [runAttempts]
      by_cases hg : env.genOk pno a = true
      · rw [if_pos hg, attemptSuccess_getPage_ne _ _ _ _ _ _ _ _ hq]
        exact getPage_markPage_ne _ _ _ _ hq
      · rw [if_neg hg, ih]
        exact getPage_markPage_ne _ _ _ _ hq

theorem runAttempts_files (env : RenderEnv) (gcsPre : Option String) (workdir : String)
    (pno : Nat) (refPaths : List String) (attempts : List Nat) (st : JobState) :
    (runAttempts env gcsPre workdir pno refPaths attempts st).files = st.files
    ∨ (runAttempts env gcsPre workdir pno refPaths attempts st).files
        = insertFile pno st.files := by
  induction attempts generalizing st with
  | nil => exact Or.inl rfl
  | cons a rest ih =>
      simp only [runAttempts]
      by_cases hg : env.genOk pno a = true
      · rw [if_pos hg]
        exact Or.inr rfl
      · rw [if_neg hg]
        exact ih _

theorem runAttempts_calls (env : RenderEnv) (gcsPre : Option String) (workdir : String)
    (pno : Nat) (refPaths : List String) (attempts : List Nat) (st : JobState) :
    ∃ L, (runAttempts env gcsPre workdir pno refPaths attempts st).calls = st.calls ++ L
      ∧ (∀ c ∈ L, c.page = pno) ∧ L.length ≤ attempts.length := by
  induction attempts generalizing st with
  | nil => exact ⟨[], by simp [runAttempts], by simp, by simp⟩
  | cons a rest ih =>
      simp only [runAttempts]
      by_cases hg : env.genOk pno a = true
      · rw [if_pos hg]
        refine ⟨[⟨pno, a, refPaths⟩], ?_, ?_, ?_⟩
        · show (attemptBase pno refPaths a st).calls = _
          simp [attemptBase]
        · intro c hc
          simp only [List.mem_singleton] at hc
          subst hc
          rfl
        · simp
      · rw [if_neg hg]
        obtain ⟨L, hL, hpg, hlen⟩ := ih (attemptBase pno refPaths a st)
        refine ⟨⟨pno, a, refPaths⟩ :: L, ?_, ?_, ?_⟩
        · rw [hL]
          simp [attemptBase]
        · intro c hc
          rcases List.mem_cons.mp hc with h1 | h1
          · subst h1; rfl
          · exact hpg c h1
        · simpa using Nat.succ_le_succ hlen

theorem runAttempts_all_fail (env : RenderEnv) (gcsPre : Option String) (workdir : String)
    (pno : Nat) (refPaths : List String) (attempts : List Nat) (st : JobState)
    (hfail : ∀ a ∈ attempts, env.genOk pno a = false) :
    (runAttempts env gcsPre workdir pno refPaths attempts st).calls
        = st.calls ++ attempts.map (fun a => (⟨pno, a, refPaths⟩ : GenCall))
    ∧ (runAttempts env gcsPre workdir pno refPaths attempts st).files = st.files
    ∧ (runAttempts env gcsPre workdir pno refPaths attempts st).results = st.results
    ∧ (runAttempts env gcsPre workdir pno refPaths attempts st).prevRef = st.prevRef := by
  induction attempts generalizing st with
  | nil => simp [runAttempts]
  | cons a rest ih =>
      have hga : env.genOk pno a = false := hfail a (List.mem_cons_self a rest)
      simp only [runAttempts]
      rw [if_neg (by simp [hga])]
      obtain ⟨h1, h2, h3, h4⟩ := ih (attemptBase pno refPaths a st)
        (fun x hx => hfail x (List.mem_cons_of_mem a hx))
      refine ⟨?_, ?_, ?_, ?_⟩
      · rw [h1]
        simp [attemptBase]
      · rw [h2]; rfl
      · rw [h3]; rfl
      · rw [h4]; rfl

theorem runAttempts_upload_fail (env : RenderEnv) (g workdir : String)
    (pno : Nat) (refPaths : List String) (attempts : List Nat) (st : JobState)
    (hup : env.uploadOk pno = false)
    (hnotin : pno ∉ st.files)
    (hin : pno ∈ (runAttempts env (some g) workdir pno refPaths attempts st).files) :
    ∃ e, (runAttempts env (some g) workdir pno refPaths attempts st).manifest.getPage pno
        = some e
      ∧ e.status = "rendered" ∧ e.uploaded = some false
      ∧ e.upload_error = some (env.uploadErr pno)
      ∧ e.local_path = some (pageFilePath workdir pno) := by
  induction attempts generalizing st with
  | nil => exact absurd hin hnotin
  | cons a rest ih =>
      simp only [runAttempts] at *
      by_cases hg : env.genOk pno a = true
      · rw [if_pos hg]
        unfold attemptSuccess
        simp only [hup, if_neg, Bool.false_eq_true, not_false_iff]
        exact ⟨_, getPage_markPage_self _ _ _, rfl, rfl, rfl, rfl⟩
      · rw [if_neg hg]
        rw [if_neg hg] at hin
        exact ih (attemptBase pno refPaths a st) hnotin hin

theorem runAttempts_done_source (env : RenderEnv) (gcsPre : Option String)
    (workdir : String) (pno : Nat) (refPaths : List String) (attempts : List Nat)
    (st : JobState) (e : PageEntry)
    (hp : (runAttempts env gcsPre workdir pno refPaths attempts st).manifest.getPage pno
        = some e)
    (hd : e.status = "done") :
    ((∃ a ∈ attempts, env.genOk pno a = true) ∧ env.uploadOk pno = true ∧ gcsPre ≠ none)
    ∨ runAttempts env gcsPre workdir pno refPaths attempts st = st := by
  induction attempts generalizing st with
  | nil => exact Or.inr rfl
  | cons a rest ih =>
      simp only [runAttempts] at *
      by_cases hg : env.genOk pno a = true
      · rw [if_pos hg] at hp
        unfold attemptSuccess at hp
        cases gcsPre with
        | none =>
            rw [getPage_markPage_self] at hp
            cases hp
            simp [markRenderedEntry] at hd
        | some g =>
            by_cases hu : env.uploadOk pno = true
            · exact Or.inl ⟨⟨a, List.mem_cons_self a rest, hg⟩, hu, by simp⟩
            · simp only [hu, if_neg, Bool.false_eq_true, not_false_iff] at hp
              rw [getPage_markPage_self] at hp
              cases hp
              simp [markUploadFailedEntry] at hd
      · rw [if_neg hg] at hp
        rcases ih (attemptBase pno refPaths a st) hp with h1 | h1
        · exact Or.inl ⟨⟨h1.1.choose, List.mem_cons_of_mem a h1.1.choose_spec.1,
            h1.1.choose_spec.2⟩, h1.2⟩
        · rw [h1] at hp
          have : (attemptBase pno refPaths a st).manifest.getPage pno = some e := hp
          unfold attemptBase at this
          rw [getPage_markPage_self] at this
          cases this
          simp [markRunningAttempt] at hd

theorem runAttempts_status_pno (env : RenderEnv) (gcsPre : Option String)
    (workdir : String) (pno : Nat) (refPaths : List String) (attempts : List Nat)
    (st : JobState) (e : PageEntry)
    (hp : (runAttempts env gcsPre workdir pno refPaths attempts st).manifest.getPage pno
        = some e) :
    st.manifest.getPage pno = some e
    ∨ e.status = "running" ∨ e.status = "rendered" ∨ e.status = "done" := by
  induction attempts generalizing st with
  | nil => exact Or.inl hp
  | cons a rest ih =>
      simp only [runAttempts] at hp
      by_cases hg : env.genOk pno a = true
      · rw [if_pos hg] at hp
        unfold attemptSuccess at hp
        cases gcsPre with
        | none =>
            rw [getPage_markPage_self] at hp
            cases hp
            exact Or.inr (Or.inr (Or.inl rfl))
        | some g =>
            by_cases hu : env.uploadOk pno = true
            · simp only [hu, if_pos] at hp
              rw [getPage_markPage_self] at hp
              cases hp
              exact Or.inr (Or.inr (Or.inr rfl))
            · simp only [hu, if_neg, Bool.false_eq_true, not_false_iff] at hp
              rw [getPage_markPage_self] at hp
              cases hp
              exact Or.inr (Or.inr (Or.inl rfl))
      · rw [if_neg hg] at hp
        rcases ih (attemptBase pno refPaths a st) hp with h1 | h1
        · have : (attemptBase pno refPaths a st).manifest.getPage pno = some e := h1
          unfold attemptBase at this
          rw [getPage_markPage_self] at this
          cases this
          exact Or.inr (Or.inl rfl)
        · exact Or.inr h1

/-! ### Render-loop lemmas -/

theorem renderGo_final (env : RenderEnv) (gcsPre : Option String) (workdir : String)
    (pages : List Page) :
    ∀ (pno : Nat) (doc : LookbookDoc) (st : JobState),
      (renderGo env gcsPre workdir pages pno doc st).manifest.final
        = st.manifest.final := by
  induction pages with
  | nil => intro pno doc st; rfl
  | cons page rest ih =>
      intro pno doc st
      simp only [renderGo]
      split
      · rfl
      · split
        · simp [JobState.withManifest, markPage_final]
        · split
          · rw [ih, runAttempts_final]
            simp [JobState.withManifest, markPage_final]
          · simp [JobState.withManifest, markPage_final, runAttempts_final]

theorem renderGo_getPage_lt (env : RenderEnv) (gcsPre : Option String) (workdir : String)
    (pages : List Page) :
    ∀ (pno : Nat) (doc : LookbookDoc) (st : JobState) (q : Nat), q < pno →
      (renderGo env gcsPre workdir pages pno doc st).manifest.getPage q
        = st.manifest.getPage q := by
  induction pages with
  | nil => intro pno doc st q _; rfl
  | cons page rest ih =>
      intro pno doc st q hq
      have hqn : q ≠ pno := Nat.ne_of_lt hq
      simp only [renderGo]
      split
      · rfl
      · split
        · simp [JobState.withManifest, getPage_markPage_ne _ _ _ _ hqn]
        · split
          · rw [ih _ _ _ q (Nat.lt_succ_of_lt hq), runAttempts_getPage_ne _ _ _ _ _ _ _ _ hqn]
            simp [JobState.withManifest, getPage_markPage_ne _ _ _ _ hqn]
          · simp only [JobState.withManifest]
            rw [getPage_markPage_ne _ _ _ _ hqn,
              runAttempts_getPage_ne _ _ _ _ _ _ _ _ hqn]
            simp [JobState.withManifest, getPage_markPage_ne _ _ _ _ hqn]

theorem renderGo_files (env : RenderEnv) (gcsPre : Option String) (workdir : String)
    (pages : List Page) :
    ∀ (pno : Nat) (doc : LookbookDoc) (st : JobState) (q : Nat),
      (q ∈ st.files → q ∈ (renderGo env gcsPre workdir pages pno doc st).files)
      ∧ (q ∈ (renderGo env gcsPre workdir pages pno doc st).files →
          q ∈ st.files ∨ pno ≤ q) := by
  induction pages with
  | nil => intro pno doc st q; exact ⟨fun h => h, fun h => Or.inl h⟩
  | cons page rest ih =>
      intro pno doc st q
      simp only [renderGo]
      split
      · exact ⟨fun h => h, fun h => Or.inl h⟩
      · split
        · exact ⟨fun h => h, fun h => Or.inl h⟩
        · split
          · constructor
            · intro h
              refine (ih _ _ _ q).1 ?_
              rcases runAttempts_files env gcsPre workdir pno _ _ _ with hf | hf
              · rw [hf]; exact h
              · rw [hf, mem_insertFile]; exact Or.inl h
            · intro h
              rcases (ih _ _ _ q).2 h with h1 | h1
              · rcases runAttempts_files env gcsPre workdir pno _ _ _ with hf | hf
                · rw [hf] at h1; exact Or.inl h1
                · rw [hf, mem_insertFile] at h1
                  rcases h1 with h2 | h2
                  · exact Or.inl h2
                  · exact Or.inr (le_of_eq h2.symm)
              · exact Or.inr (Nat.le_of_succ_le h1)
          · constructor
            · intro h
              show q ∈ (runAttempts env gcsPre workdir pno _ _ _).files
              rcases runAttempts_files env gcsPre workdir pno _ _ _ with hf | hf
              · rw [hf]; exact h
              · rw [hf, mem_insertFile]; exact Or.inl h
            · intro h
              replace h : q ∈ (runAttempts env gcsPre workdir pno _ _ _).files := h
              rcases runAttempts_files env gcsPre workdir pno _ _ _ with hf | hf
              · rw [hf] at h; exact Or.inl h
              · rw [hf, mem_insertFile] at h
                rcases h with h2 | h2
                · exact Or.inl h2
                · exact Or.inr (le_of_eq h2.symm)

theorem renderGo_calls (env : RenderEnv) (gcsPre : Option String) (workdir : String)
    (pages : List Page) :
    ∀ (pno : Nat) (doc : LookbookDoc) (st : JobState),
      ∃ L, (renderGo env gcsPre workdir pages pno doc st).calls = st.calls ++ L
        ∧ (∀ c ∈ L, pno ≤ c.page)
        ∧ (∀ p', ((L.filter (fun c => c.page == p')).length ≤ renderRetries)) := by
  induction pages with
  | nil =>
      intro pno doc st
      exact ⟨[], by simp [renderGo], by simp, by simp [renderRetries]⟩
  | cons page rest ih =>
      intro pno doc st
      simp only [renderGo]
      split
      · exact ⟨[], by simp, by simp, by simp [renderRetries]⟩
      · split
        · exact ⟨[], by simp [JobState.withManifest], by simp, by simp [renderRetries]⟩
        · obtain ⟨L0, h0, h0p, h0len⟩ := runAttempts_calls env gcsPre workdir pno
            (collectRefPathsForSlice env
              (buildLookbookSlice (ensureRefAssetsForIds env pno doc (collectPageIds page)).1
                (collectPageIds page)))
            (List.range' 1 renderRetries)
            ((JobState.withManifest st
              (markPage st.manifest pno (markRunningStart st.prevRef
                (sortStrs (collectPageIds page))))))
          have h0len' : L0.length ≤ renderRetries := by
            simpa [List.length_range'] using h0len
          split
          · obtain ⟨L1, h1, h1p, h1len⟩ := ih (pno + 1) _ _
            refine ⟨L0 ++ L1, ?_, ?_, ?_⟩
            · rw [h1, h0]
              simp [JobState.withManifest]
            · intro c hc
              rcases List.mem_append.mp hc with h2 | h2
              · exact le_of_eq (h0p c h2).symm
              · exact Nat.le_of_succ_le (h1p c h2)
            · intro p'
              rw [List.filter_append, List.length_append]
              by_cases hp' : p' = pno
              · subst hp'
                have hL1 : (L1.filter (fun c => c.page == p')) = [] := by
                  rw [List.filter_eq_nil_iff]
                  intro c hc
                  have := h1p c hc
                  simp only [beq_iff_eq]
                  omega
                rw [hL1]
                simpa using le_trans (List.length_filter_le _ _) h0len'
              · have hL0 : (L0.filter (fun c => c.page == p')) = [] := by
                  rw [List.filter_eq_nil_iff]
                  intro c hc
                  rw [h0p c hc]
                  simp only [beq_iff_eq]
                  exact fun hcon => hp' hcon.symm
                rw [hL0]
                simpa using h1len p'
          · refine ⟨L0, ?_, ?_, ?_⟩
            · simp only [JobState.withManifest] at h0 ⊢
              rw [h0]
            · intro c hc
              exact le_of_eq (h0p c hc).symm
            · intro p'
              exact le_trans (List.length_filter_le _ _) h0len'

theorem insertStr_ne_nil (s : String) (l : List String) : insertStr s l ≠ [] := by
  cases l with
  | nil => simp [insertStr]
  | cons t ts =>
      simp only [insertStr]
      split <;> simp

theorem sortStrs_ne_nil (x : String) (xs : List String) : sortStrs (x :: xs) ≠ [] := by
  show insertStr x (sortStrs xs) ≠ []
  exact insertStr_ne_nil _ _

/-- C7: Blocking correctness — whenever the chained renderer records
`blocked_missing_refs` for a page `p` (which it does exactly when some
required id stays unresolved after the ensure step), the blocked entry
lists the unresolved ids (sorted keys of the nonempty missing map), and
every later page of the run is untouched: its manifest entry, its
generation calls and its page file are exactly as before the run, so no
subsequent page reaches `done` in that run and the blocked page is
neither skipped nor rendered degraded. -/
theorem render_blocked_stops_chain (env : RenderEnv) (gcsPre : Option String)
    (workdir : String) (pages : List Page) :
    ∀ (pno : Nat) (doc : LookbookDoc) (st : JobState) (p : Nat) (e : PageEntry),
    (∀ q e0, st.manifest.getPage q = some e0 → e0.status ≠ "blocked_missing_refs") →
    (renderGo env gcsPre workdir pages pno doc st).manifest.getPage p = some e →
    e.status = "blocked_missing_refs" →
    pno ≤ p
    ∧ (∃ reasons, reasons ≠ []
        ∧ e.blocked_ids = some (sortStrs (reasons.map (fun kv => kv.1)))
        ∧ e.blocked_reasons = some reasons)
    ∧ (∀ q, p < q →
        (renderGo env gcsPre workdir pages pno doc st).manifest.getPage q
          = st.manifest.getPage q)
    ∧ (∃ L, (renderGo env gcsPre workdir pages pno doc st).calls = st.calls ++ L
        ∧ ∀ c ∈ L, c.page ≤ p)
    ∧ (∀ q, p < q →
        (q ∈ (renderGo env gcsPre workdir pages pno doc st).files ↔ q ∈ st.files)) := by
  induction pages with
  | nil =>
      intro pno doc st p e hclean hp hb
      exact absurd hb (hclean p e hp)
  | cons page rest ih =>
      intro pno doc st p e hclean hp hb
      simp only [renderGo] at hp ⊢
      by_cases hcanc : env.cancelledAt pno = true
      · rw [if_pos hcanc] at hp
        exact absurd hb (hclean p e hp)
      · rw [if_neg hcanc] at hp ⊢
        by_cases hmiss : (ensureRefAssetsForIds env pno doc (collectPageIds page)).2 ≠ []
        · rw [if_pos hmiss] at hp ⊢
          by_cases hpq : p = pno
          · subst hpq
            simp only [JobState.withManifest] at hp
            rw [getPage_markPage_self] at hp
            cases hp
            refine ⟨le_refl p, ?_, ?_, ?_, ?_⟩
            · exact ⟨(ensureRefAssetsForIds env p doc (collectPageIds page)).2,
                hmiss, rfl, rfl⟩
            · intro q hq
              simp only [JobState.withManifest]
              exact getPage_markPage_ne _ _ _ _ (Nat.ne_of_lt hq).symm
            · exact ⟨[], by simp [JobState.withManifest], by simp⟩
            · intro q _
              exact Iff.rfl
          · simp only [JobState.withManifest] at hp
            rw [getPage_markPage_ne _ _ _ _ hpq] at hp
            exact absurd hb (hclean p e hp)
        · rw [if_neg hmiss] at hp ⊢
          set st2 := runAttempts env gcsPre workdir pno
            (collectRefPathsForSlice env (buildLookbookSlice
              (ensureRefAssetsForIds env pno doc (collectPageIds page)).1
              (collectPageIds page)))
            (List.range' 1 renderRetries)
            (JobState.withManifest st
              (markPage st.manifest pno (markRunningStart st.prevRef
                (sortStrs (collectPageIds page))))) with hst2
          by_cases hfile : pno ∈ st2.files
          · rw [if_pos hfile] at hp ⊢
            have hclean2 : ∀ q e0, st2.manifest.getPage q = some e0
                → e0.status ≠ "blocked_missing_refs" := by
              intro q e0 hq0
              by_cases hqp : q = pno
              · subst hqp
                rw [hst2] at hq0
                rcases runAttempts_status_pno _ _ _ _ _ _ _ _ hq0 with h1 | h1 | h1 | h1
                · simp only [JobState.withManifest] at h1
                  rw [getPage_markPage_self] at h1
                  cases h1
                  simp [markRunningStart]
                · simp [h1]
                · simp [h1]
                · simp [h1]
              · rw [hst2, runAttempts_getPage_ne _ _ _ _ _ _ _ _ hqp] at hq0
                simp only [JobState.withManifest] at hq0
                rw [getPage_markPage_ne _ _ _ _ hqp] at hq0
                exact hclean q e0 hq0
            obtain ⟨hple, hids, hframe, ⟨L1, hL1, hL1p⟩, hfiles⟩ :=
              ih (pno + 1) _ _ p e hclean2 hp hb
            refine ⟨Nat.le_of_succ_le hple, hids, ?_, ?_, ?_⟩
            · intro q hq
              rw [hframe q hq]
              have hqp : q ≠ pno := by omega
              rw [hst2, runAttempts_getPage_ne _ _ _ _ _ _ _ _ hqp]
              simp only [JobState.withManifest]
              exact getPage_markPage_ne _ _ _ _ hqp
            · obtain ⟨L0, h0, h0p, _⟩ := runAttempts_calls env gcsPre workdir pno
                (collectRefPathsForSlice env (buildLookbookSlice
                  (ensureRefAssetsForIds env pno doc (collectPageIds page)).1
                  (collectPageIds page)))
                (List.range' 1 renderRetries)
                (JobState.withManifest st
                  (markPage st.manifest pno (markRunningStart st.prevRef
                    (sortStrs (collectPageIds page)))))
              rw [← hst2] at h0
              refine ⟨L0 ++ L1, ?_, ?_⟩
              · rw [hL1, h0]
                simp [JobState.withManifest]
              · intro c hc
                rcases List.mem_append.mp hc with h2 | h2
                · rw [h0p c h2]
                  omega
                · exact hL1p c h2
            · intro q hq
              rw [hfiles q hq]
              have hqp : q ≠ pno := by omega
              rcases runAttempts_files env gcsPre workdir pno
                (collectRefPathsForSlice env (buildLookbookSlice
                  (ensureRefAssetsForIds env pno doc (collectPageIds page)).1
                  (collectPageIds page)))
                (List.range' 1 renderRetries)
                (JobState.withManifest st
                  (markPage st.manifest pno (markRunningStart st.prevRef
                    (sortStrs (collectPageIds page))))) with hf | hf
              · rw [← hst2] at hf
                rw [hf]
                simp [JobState.withManifest]
              · rw [← hst2] at hf
                rw [hf, mem_insertFile]
                simp [JobState.withManifest, hqp]
          · rw [if_neg hfile] at hp ⊢
            by_cases hpq : p = pno
            · subst hpq
              simp only [JobState.withManifest] at hp
              rw [getPage_markPage_self] at hp
              cases hp
              simp [markFailedEntry] at hb
            · simp only [JobState.withManifest] at hp
              rw [getPage_markPage_ne _ _ _ _ hpq] at hp
              rw [hst2, runAttempts_getPage_ne _ _ _ _ _ _ _ _ hpq] at hp
              simp only [JobState.withManifest] at hp
              rw [getPage_markPage_ne _ _ _ _ hpq] at hp
              exact absurd hb (hclean p e hp)

/-- C8: Bounded retry with failure recording — along any run, at most
`retries = 3` generation calls are issued for a page; and if the
generation capability fails on all 3 configured attempts for a page the
renderer did reach (a 4th attempt is never consulted), that page ends
with status `failed` — not `done` — carrying the last attempt's error
message, exactly 3 calls were issued for it, and the chain stops: every
later page's manifest entry is untouched and all issued calls are for
pages up to the failed one. -/
theorem render_failed_after_bounded_retries (env : RenderEnv) (gcsPre : Option String)
    (workdir : String) (pages : List Page) :
    ∀ (pno : Nat) (doc : LookbookDoc) (st : JobState) (p : Nat),
    (∀ a, 1 ≤ a → a ≤ renderRetries → env.genOk p a = false) →
    p ∉ st.files →
    ∃ L, (renderGo env gcsPre workdir pages pno doc st).calls = st.calls ++ L
      ∧ (L.filter (fun c => c.page == p)).length ≤ renderRetries
      ∧ ((∃ c ∈ L, c.page = p) →
          pno ≤ p
          ∧ (∃ e, (renderGo env gcsPre workdir pages pno doc st).manifest.getPage p = some e
              ∧ e.status = "failed" ∧ e.last_error = some (env.genErr p renderRetries))
          ∧ (L.filter (fun c => c.page == p)).length = renderRetries
          ∧ (∀ q, p < q →
              (renderGo env gcsPre workdir pages pno doc st).manifest.getPage q
                = st.manifest.getPage q)
          ∧ (∀ c ∈ L, c.page ≤ p)) := by
  induction pages with
  | nil =>
      intro pno doc st p hfail hnotin
      refine ⟨[], by simp [renderGo], by simp [renderRetries], ?_⟩
      rintro ⟨c, hc, -⟩
      simp at hc
  | cons page rest ih =>
      intro pno doc st p hfail hnotin
      simp only [renderGo]
      by_cases hcanc : env.cancelledAt pno = true
      · rw [if_pos hcanc]
        refine ⟨[], by simp, by simp [renderRetries], ?_⟩
        rintro ⟨c, hc, -⟩
        simp at hc
      · rw [if_neg hcanc]
        by_cases hmiss : (ensureRefAssetsForIds env pno doc (collectPageIds page)).2 ≠ []
        · rw [if_pos hmiss]
          refine ⟨[], by simp [JobState.withManifest], by simp [renderRetries], ?_⟩
          rintro ⟨c, hc, -⟩
          simp at hc
        · rw [if_neg hmiss]
          set st1 := JobState.withManifest st
            (markPage st.manifest pno (markRunningStart st.prevRef
              (sortStrs (collectPageIds page)))) with hst1
          set refPaths := collectRefPathsForSlice env (buildLookbookSlice
            (ensureRefAssetsForIds env pno doc (collectPageIds page)).1
            (collectPageIds page)) with hrefPaths
          set st2 := runAttempts env gcsPre workdir pno refPaths
            (List.range' 1 renderRetries) st1 with hst2
          by_cases hpq : p = pno
          · -- the failing page is the current page: all its attempts fail
            subst hpq
            have hfailmem : ∀ a ∈ List.range' 1 renderRetries, env.genOk p a = false := by
              intro a ha
              rw [List.mem_range'_1] at ha
              exact hfail a ha.1 (by omega)
            obtain ⟨hcalls, hfiles, -, -⟩ :=
              runAttempts_all_fail env gcsPre workdir p refPaths
                (List.range' 1 renderRetries) st1 hfailmem
            rw [← hst2] at hcalls hfiles
            have hnotin2 : p ∉ st2.files := by
              rw [hfiles]
              exact hnotin
            rw [if_neg hnotin2]
            refine ⟨(List.range' 1 renderRetries).map
              (fun a => (⟨p, a, refPaths⟩ : GenCall)), ?_, ?_, ?_⟩
            · show st2.calls = _
              rw [hcalls]
              rfl
            · have : ((List.range' 1 renderRetries).map
                  (fun a => (⟨p, a, refPaths⟩ : GenCall))).filter
                    (fun c => c.page == p)
                  = (List.range' 1 renderRetries).map
                      (fun a => (⟨p, a, refPaths⟩ : GenCall)) := by
                rw [List.filter_eq_self]
                intro c hc
                simp only [List.mem_map] at hc
                obtain ⟨a, -, rfl⟩ := hc
                simp
              rw [this]
              simp [List.length_range']
            · rintro -
              refine ⟨le_refl p, ?_, ?_, ?_, ?_⟩
              · refine ⟨markFailedEntry (env.genErr p renderRetries)
                  ((st2.manifest.getPage p).getD {}), ?_, rfl, rfl⟩
                simp only [JobState.withManifest]
                exact getPage_markPage_self _ _ _
              · have : ((List.range' 1 renderRetries).map
                    (fun a => (⟨p, a, refPaths⟩ : GenCall))).filter
                      (fun c => c.page == p)
                    = (List.range' 1 renderRetries).map
                        (fun a => (⟨p, a, refPaths⟩ : GenCall)) := by
                  rw [List.filter_eq_self]
                  intro c hc
                  simp only [List.mem_map] at hc
                  obtain ⟨a, -, rfl⟩ := hc
                  simp
                rw [this]
                simp [List.length_range']
              · intro q hq
                have hqp : q ≠ p := by omega
                simp only [JobState.withManifest]
                rw [getPage_markPage_ne _ _ _ _ hqp]
                rw [hst2, runAttempts_getPage_ne _ _ _ _ _ _ _ _ hqp, hst1]
                simp only [JobState.withManifest]
                exact getPage_markPage_ne _ _ _ _ hqp
              · intro c hc
                simp only [List.mem_map] at hc
                obtain ⟨a, -, rfl⟩ := hc
                exact le_refl p
          · -- the failing page is further along
            obtain ⟨L0, h0, h0p, -⟩ := runAttempts_calls env gcsPre workdir pno refPaths
              (List.range' 1 renderRetries) st1
            rw [← hst2] at h0
            have h0calls : st2.calls = st.calls ++ L0 := by
              rw [h0, hst1]
              rfl
            have hL0filter : (L0.filter (fun c => c.page == p)) = [] := by
              rw [List.filter_eq_nil_iff]
              intro c hc
              rw [h0p c hc]
              simp only [beq_iff_eq]
              exact fun hcon => hpq hcon.symm
            by_cases hfile : pno ∈ st2.files
            · rw [if_pos hfile]
              have hnotin2 : p ∉ st2.files := by
                rcases runAttempts_files env gcsPre workdir pno refPaths
                  (List.range' 1 renderRetries) st1 with hf | hf
                · rw [← hst2] at hf
                  rw [hf, hst1]
                  exact hnotin
                · rw [← hst2] at hf
                  rw [hf, mem_insertFile]
                  rintro (h1 | h1)
                  · exact hnotin h1
                  · exact hpq h1
              obtain ⟨L1, h1, h1bound, h1imp⟩ := ih (pno + 1) _ st2 p hfail hnotin2
              refine ⟨L0 ++ L1, ?_, ?_, ?_⟩
              · rw [h1, h0calls, List.append_assoc]
              · rw [List.filter_append, hL0filter]
                simpa using h1bound
              · rintro ⟨c, hc, hcp⟩
                rcases List.mem_append.mp hc with h2 | h2
                · exact absurd ((hcp.symm).trans (h0p c h2)) hpq
                · obtain ⟨hple, hentry, hexact, hframe, hpages⟩ := h1imp ⟨c, h2, hcp⟩
                  refine ⟨Nat.le_of_succ_le hple, hentry, ?_, ?_, ?_⟩
                  · rw [List.filter_append, hL0filter]
                    simpa using hexact
                  · intro q hq
                    rw [hframe q hq]
                    have hqp : q ≠ pno := by omega
                    rw [hst2, runAttempts_getPage_ne _ _ _ _ _ _ _ _ hqp, hst1]
                    simp only [JobState.withManifest]
                    exact getPage_markPage_ne _ _ _ _ hqp
                  · intro c' hc'
                    rcases List.mem_append.mp hc' with h3 | h3
                    · rw [h0p c' h3]
                      omega
                    · exact hpages c' h3
            · rw [if_neg hfile]
              refine ⟨L0, ?_, ?_, ?_⟩
              · simp only [JobState.withManifest]
                rw [h0calls]
              · rw [hL0filter]
                simp [renderRetries]
              · rintro ⟨c, hc, hcp⟩
                exact absurd ((hcp.symm).trans (h0p c hc)) hpq

theorem renderGo_upload_fail (env : RenderEnv) (g workdir : String) (pages : List Page) :
    ∀ (pno : Nat) (doc : LookbookDoc) (st : JobState) (p : Nat),
    env.uploadOk p = false →
    p ∉ st.files →
    p ∈ (renderGo env (some g) workdir pages pno doc st).files →
    ∃ e, (renderGo env (some g) workdir pages pno doc st).manifest.getPage p = some e
      ∧ e.status = "rendered" ∧ e.uploaded = some false
      ∧ e.upload_error = some (env.uploadErr p)
      ∧ e.local_path = some (pageFilePath workdir p) := by
  induction pages with
  | nil =>
      intro pno doc st p _ hnotin hin
      exact absurd hin hnotin
  | cons page rest ih =>
      intro pno doc st p hup hnotin hin
      simp only [renderGo] at hin ⊢
      by_cases hcanc : env.cancelledAt pno = true
      · rw [if_pos hcanc] at hin
        exact absurd hin hnotin
      · rw [if_neg hcanc] at hin ⊢
        by_cases hmiss : (ensureRefAssetsForIds env pno doc (collectPageIds page)).2 ≠ []
        · rw [if_pos hmiss] at hin
          simp only [JobState.withManifest] at hin
          exact absurd hin hnotin
        · rw [if_neg hmiss] at hin ⊢
          set st1 := JobState.withManifest st
            (markPage st.manifest pno (markRunningStart st.prevRef
              (sortStrs (collectPageIds page)))) with hst1
          set refPaths := collectRefPathsForSlice env (buildLookbookSlice
            (ensureRefAssetsForIds env pno doc (collectPageIds page)).1
            (collectPageIds page)) with hrefPaths
          set st2 := runAttempts env (some g) workdir pno refPaths
            (List.range' 1 renderRetries) st1 with hst2
          by_cases hfile : pno ∈ st2.files
          · rw [if_pos hfile] at hin ⊢
            by_cases hpq : p = pno
            · subst hpq
              have hnotin1 : p ∉ st1.files := hnotin
              obtain ⟨e, he, h1, h2, h3, h4⟩ := runAttempts_upload_fail env g workdir p
                refPaths (List.range' 1 renderRetries) st1 hup hnotin1 hfile
              rw [← hst2] at he
              refine ⟨e, ?_, h1, h2, h3, h4⟩
              rw [renderGo_getPage_lt env (some g) workdir rest (p + 1) _ st2 p
                (Nat.lt_succ_self p)]
              exact he
            · have hnotin2 : p ∉ st2.files := by
                rcases runAttempts_files env (some g) workdir pno refPaths
                  (List.range' 1 renderRetries) st1 with hf | hf
                · rw [← hst2] at hf
                  rw [hf]
                  exact hnotin
                · rw [← hst2] at hf
                  rw [hf, mem_insertFile]
                  rintro (h1 | h1)
                  · exact hnotin h1
                  · exact hpq h1
              exact ih (pno + 1) _ st2 p hup hnotin2 hin
          · rw [if_neg hfile] at hin
            exfalso
            replace hin : p ∈ st2.files := hin
            rcases runAttempts_files env (some g) workdir pno refPaths
              (List.range' 1 renderRetries) st1 with hf | hf
            · rw [← hst2] at hf
              rw [hf] at hin
              exact hnotin hin
            · rw [← hst2] at hf
              exact hfile (by rw [hf, mem_insertFile]; exact Or.inr rfl)

theorem renderGo_done_source (env : RenderEnv) (gcsPre : Option String)
    (workdir : String) (pages : List Page) :
    ∀ (pno : Nat) (doc : LookbookDoc) (st : JobState) (p : Nat) (e : PageEntry),
    (∀ e0, st.manifest.getPage p = some e0 → e0.status ≠ "done") →
    (renderGo env gcsPre workdir pages pno doc st).manifest.getPage p = some e →
    e.status = "done" →
    env.uploadOk p = true ∧ gcsPre ≠ none
      ∧ ∃ a, 1 ≤ a ∧ a ≤ renderRetries ∧ env.genOk p a = true := by
  induction pages with
  | nil =>
      intro pno doc st p e hclean hp hd
      exact absurd hd (hclean e hp)
  | cons page rest ih =>
      intro pno doc st p e hclean hp hd
      simp only [renderGo] at hp
      by_cases hcanc : env.cancelledAt pno = true
      · rw [if_pos hcanc] at hp
        exact absurd hd (hclean e hp)
      · rw [if_neg hcanc] at hp
        by_cases hmiss : (ensureRefAssetsForIds env pno doc (collectPageIds page)).2 ≠ []
        · rw [if_pos hmiss] at hp
          by_cases hpq : p = pno
          · subst hpq
            simp only [JobState.withManifest] at hp
            rw [getPage_markPage_self] at hp
            cases hp
            simp [markBlockedEntry] at hd
          · simp only [JobState.withManifest] at hp
            rw [getPage_markPage_ne _ _ _ _ hpq] at hp
            exact absurd hd (hclean e hp)
        · rw [if_neg hmiss] at hp
          set st1 := JobState.withManifest st
            (markPage st.manifest pno (markRunningStart st.prevRef
              (sortStrs (collectPageIds page)))) with hst1
          set refPaths := collectRefPathsForSlice env (buildLookbookSlice
            (ensureRefAssetsForIds env pno doc (collectPageIds page)).1
            (collectPageIds page)) with hrefPaths
          set st2 := runAttempts env gcsPre workdir pno refPaths
            (List.range' 1 renderRetries) st1 with hst2
          by_cases hfile : pno ∈ st2.files
          · rw [if_pos hfile] at hp
            by_cases hpq : p = pno
            · subst hpq
              rw [renderGo_getPage_lt env gcsPre workdir rest (p + 1) _ st2 p
                (Nat.lt_succ_self p)] at hp
              rw [hst2] at hp
              rcases runAttempts_done_source env gcsPre workdir p refPaths
                  (List.range' 1 renderRetries) st1 e hp hd with
                ⟨⟨a, hamem, hga⟩, hu, hgc⟩ | heq
              · rw [List.mem_range'_1] at hamem
                exact ⟨hu, hgc, a, hamem.1, by omega, hga⟩
              · rw [heq] at hp
                replace hp : (JobState.withManifest st
                    (markPage st.manifest p (markRunningStart st.prevRef
                      (sortStrs (collectPageIds page))))).manifest.getPage p = some e := hp
                simp only [JobState.withManifest] at hp
                rw [getPage_markPage_self] at hp
                cases hp
                simp [markRunningStart] at hd
            · have hclean2 : ∀ e0, st2.manifest.getPage p = some e0
                  → e0.status ≠ "done" := by
                intro e0 h0
                rw [hst2, runAttempts_getPage_ne _ _ _ _ _ _ _ _ hpq, hst1] at h0
                simp only [JobState.withManifest] at h0
                rw [getPage_markPage_ne _ _ _ _ hpq] at h0
                exact hclean e0 h0
              exact ih (pno + 1) _ st2 p e hclean2 hp hd
          · rw [if_neg hfile] at hp
            by_cases hpq : p = pno
            · subst hpq
              simp only [JobState.withManifest] at hp
              rw [getPage_markPage_self] at hp
              cases hp
              simp [markFailedEntry] at hd
            · simp only [JobState.withManifest] at hp
              rw [getPage_markPage_ne _ _ _ _ hpq] at hp
              rw [hst2, runAttempts_getPage_ne _ _ _ _ _ _ _ _ hpq, hst1] at hp
              simp only [JobState.withManifest] at hp
              rw [getPage_markPage_ne _ _ _ _ hpq] at hp
              exact absurd hd (hclean e hp)

/-- C9: Upload-failure semantics — (a) if a page's local render
succeeded in this run (its file was newly written) but its durable
upload fails, the page's manifest entry reads `rendered` — not `done` —
with `uploaded = false`, the upload error message recorded and the
local path still set (the file itself stays on disk: it is a member of
the run's file set); (b) an entry can read `done` only when some
generation attempt (within the 3 configured) succeeded AND the upload
succeeded (and a GCS destination existed). -/
theorem render_upload_failure_semantics (env : RenderEnv) (workdir : String)
    (pages : List Page) (pno : Nat) (doc : LookbookDoc) (st : JobState) (p : Nat) :
    (∀ g, env.uploadOk p = false → p ∉ st.files →
      p ∈ (renderGo env (some g) workdir pages pno doc st).files →
      ∃ e, (renderGo env (some g) workdir pages pno doc st).manifest.getPage p = some e
        ∧ e.status = "rendered" ∧ e.uploaded = some false
        ∧ e.upload_error = some (env.uploadErr p)
        ∧ e.local_path = some (pageFilePath workdir p))
    ∧ (∀ (gcsPre : Option String) (e : PageEntry),
        (∀ e0, st.manifest.getPage p = some e0 → e0.status ≠ "done") →
        (renderGo env gcsPre workdir pages pno doc st).manifest.getPage p = some e →
        e.status = "done" →
        env.uploadOk p = true ∧ gcsPre ≠ none
          ∧ ∃ a, 1 ≤ a ∧ a ≤ renderRetries ∧ env.genOk p a = true) :=
  ⟨fun g => renderGo_upload_fail env g workdir pages pno doc st p,
   fun gcsPre e => renderGo_done_source env gcsPre workdir pages pno doc st p e⟩

/-! ### Concrete environments for the render-loop witnesses -/

def exEnvBlocked : RenderEnv :=
  { cancelledAt := fun _ => false
    refGen := fun _ => none
    resolvePath := fun _ => none
    genOk := fun _ _ => false
    genErr := fun _ _ => "image gen failed"
    uploadOk := fun _ => false
    uploadErr := fun _ => "upload failed"
    gcsInfo := fun _ => "gs://b/p.png" }

def exEnvFail : RenderEnv :=
  { cancelledAt := fun _ => false
    refGen := fun _ => none
    resolvePath := fun _ => none
    genOk := fun _ _ => false
    genErr := fun _ _ => "image gen failed"
    uploadOk := fun _ => true
    uploadErr := fun _ => "upload failed"
    gcsInfo := fun _ => "gs://b/p.png" }

def exEnvUploadFail : RenderEnv :=
  { cancelledAt := fun _ => false
    refGen := fun _ => none
    resolvePath := fun _ => none
    genOk := fun _ _ => true
    genErr := fun _ _ => "image gen failed"
    uploadOk := fun _ => false
    uploadErr := fun _ => "upload failed"
    gcsInfo := fun _ => "gs://b/p.png" }

/-- A page that references an entity id that is absent from the (empty)
lookbook. -/
def exC7Page : Page := { page_number := 1, panels := [], characters := ["char_ghost"] }

/-- A page with no entity references at all. -/
def exPlainPage : Page := { page_number := 1, panels := [] }

def exEmptyState : JobState := { manifest := {} }

def exC7BlockedEntry : PageEntry :=
  markBlockedEntry ["char_ghost"] [("char_ghost", "not_found_in_lookbook")] {}

/-- C7 witness: a one-page job whose page needs `char_ghost`, absent
from the empty lookbook, ends blocked and its chain state is frozen. -/
theorem render_blocked_stops_chain_witness :
    ((renderGo exEnvBlocked none "wd" [exC7Page] 1 {} exEmptyState).manifest.getPage 1
        = some exC7BlockedEntry)
    ∧ exC7BlockedEntry.status = "blocked_missing_refs"
    ∧ 1 ≤ 1
    ∧ (∀ q, 1 < q →
        (renderGo exEnvBlocked none "wd" [exC7Page] 1 {} exEmptyState).manifest.getPage q
          = exEmptyState.manifest.getPage q) := by
  have hclean : ∀ q e0, exEmptyState.manifest.getPage q = some e0
      → e0.status ≠ "blocked_missing_refs" := by
    intro q e0 h
    simp [exEmptyState, Manifest.getPage, List.find?] at h
  have hp : (renderGo exEnvBlocked none "wd" [exC7Page] 1 {} exEmptyState).manifest.getPage 1
      = some exC7BlockedEntry := by decide
  have hmain := render_blocked_stops_chain exEnvBlocked none "wd" [exC7Page] 1 {}
    exEmptyState 1 exC7BlockedEntry hclean hp (by decide)
  exact ⟨hp, by decide, hmain.1, hmain.2.2.1⟩

/-- C8 witness: with a generation oracle that always fails, the single
page of the job ends `failed` with the last error recorded, after the
three configured attempts. -/
theorem render_failed_after_bounded_retries_witness :
    (∀ a, 1 ≤ a → a ≤ renderRetries → exEnvFail.genOk 1 a = false)
    ∧ (1 ∉ exEmptyState.files)
    ∧ (∃ e, (renderGo exEnvFail (some "jobs/j") "wd" [exPlainPage] 1 {}
          exEmptyState).manifest.getPage 1 = some e
        ∧ e.status = "failed"
        ∧ e.last_error = some (exEnvFail.genErr 1 renderRetries)) := by
  refine ⟨fun a _ _ => rfl, by simp [exEmptyState], ?_⟩
  obtain ⟨L, hL, hbound, himp⟩ := render_failed_after_bounded_retries exEnvFail
    (some "jobs/j") "wd" [exPlainPage] 1 {} exEmptyState 1
    (fun a _ _ => rfl) (by simp [exEmptyState])
  have hLeq : L = (renderGo exEnvFail (some "jobs/j") "wd" [exPlainPage] 1 {}
      exEmptyState).calls := by
    rw [hL]
    simp [exEmptyState]
  have hcall : ∃ c ∈ L, c.page = 1 := by
    rw [hLeq]
    decide
  exact (himp hcall).2.1

/-- C9 witness: generation succeeds on attempt 1, upload fails — the
page ends `rendered` with `uploaded=false`, the upload error recorded
and the local file still present. -/
theorem render_upload_failure_semantics_witness :
    (exEnvUploadFail.uploadOk 1 = false
      ∧ 1 ∉ exEmptyState.files
      ∧ 1 ∈ (renderGo exEnvUploadFail (some "jobs/j") "wd" [exPlainPage] 1 {}
          exEmptyState).files)
    ∧ (∃ e, (renderGo exEnvUploadFail (some "jobs/j") "wd" [exPlainPage] 1 {}
          exEmptyState).manifest.getPage 1 = some e
        ∧ e.status = "rendered" ∧ e.uploaded = some false
        ∧ e.upload_error = some (exEnvUploadFail.uploadErr 1)
        ∧ e.local_path = some (pageFilePath "wd" 1)) := by
  have hin : 1 ∈ (renderGo exEnvUploadFail (some "jobs/j") "wd" [exPlainPage] 1 {}
      exEmptyState).files := by decide
  refine ⟨⟨rfl, by simp [exEmptyState], hin⟩, ?_⟩
  exact (render_upload_failure_semantics exEnvUploadFail "wd" [exPlainPage] 1 {}
    exEmptyState 1).1 "jobs/j" rfl (by simp [exEmptyState]) hin

/-! ### Enqueue reseeding (C10) -/

theorem find?_map_range_pending (n i : Nat) (h1 : 1 ≤ i) (h2 : i ≤ n) :
    (((List.range n).map (fun j => (j + 1, ({ status := "pending" } : PageEntry)))).find?
      (fun kv => kv.1 == i)) = some (i, { status := "pending" }) := by
  induction n with
  | zero => omega
  | succ k ih =>
      rw [List.range_succ, List.map_append, List.find?_append]
      by_cases hik : i ≤ k
      · rw [ih hik]
        rfl
      · have hieq : i = k + 1 := by omega
        subst hieq
        have hnone : (((List.range k).map
            (fun j => (j + 1, ({ status := "pending" } : PageEntry)))).find?
              (fun kv => kv.1 == k + 1)) = none := by
          rw [List.find?_eq_none]
          intro kv hkv
          simp only [List.mem_map, List.mem_range] at hkv
          obtain ⟨j, hj, rfl⟩ := hkv
          simp only [beq_iff_eq]
          omega
        rw [hnone]
        simp [List.find?]

/-- C10: Re-enqueueing an existing, non-cancelled job discards all
recorded page progress — the manifest is reseeded so pages 1..n are all
`pending` again and `final` is reset to null; indeed the resulting
manifest does not depend on the previous manifest at all (beyond the
cancelled check). -/
theorem enqueue_reseeds_manifest (m : Manifest) (n : Nat) (t : String)
    (h : m.cancelled = false) :
    (∀ i, 1 ≤ i → i ≤ n →
      (enqueueComicJob m n t).getPage i = some { status := "pending" })
    ∧ (enqueueComicJob m n t).final = none
    ∧ (∀ m2 : Manifest, m2.cancelled = false →
        enqueueComicJob m2 n t = enqueueComicJob m n t) := by
  unfold enqueueComicJob
  rw [if_neg (by simp [h])]
  refine ⟨?_, rfl, ?_⟩
  · intro i h1 h2
    show (setTaskName (seedManifestPending n) t).getPage i = _
    unfold setTaskName Manifest.getPage seedManifestPending
    simp only
    rw [find?_map_range_pending n i h1 h2]
    rfl
  · intro m2 hm2
    rw [if_neg (by simp [hm2])]

/-- A manifest with recorded progress: page 1 done, page 2 failed, a
populated final record and a stale task handle. -/
def exC10Manifest : Manifest :=
  { pages := [(1, { status := "done", uploaded := some true }),
              (2, { status := "failed", last_error := some "boom" })]
    final := some (FinalState.uploaded "application/pdf" "gs://b/comic.pdf")
    cancelled := false
    task_name := some "old-task" }

/-- C10 witness: re-enqueueing the job resets both pages to `pending`
and `final` to null. -/
theorem enqueue_reseeds_manifest_witness :
    exC10Manifest.cancelled = false
    ∧ (enqueueComicJob exC10Manifest 2 "task-1").getPage 1 = some { status := "pending" }
    ∧ (enqueueComicJob exC10Manifest 2 "task-1").getPage 2 = some { status := "pending" }
    ∧ (enqueueComicJob exC10Manifest 2 "task-1").final = none := by
  refine ⟨rfl, ?_, ?_, ?_⟩
  · exact (enqueue_reseeds_manifest exC10Manifest 2 "task-1" rfl).1 1 (by decide) (by decide)
  · exact (enqueue_reseeds_manifest exC10Manifest 2 "task-1" rfl).1 2 (by decide) (by decide)
  · exact (enqueue_reseeds_manifest exC10Manifest 2 "task-1" rfl).2.1

/-! ### Final-record population (C3) -/

theorem renderPagesChained_final (env : RenderEnv) (pages : List Page)
    (workdir coverRef : String) (gcsPre : Option String) (lb : Option LookbookDoc)
    (st : JobState) :
    (renderPagesChained env pages workdir coverRef gcsPre lb st).manifest.final
      = st.manifest.final := by
  unfold renderPagesChained
  cases lb with
  | none => rfl
  | some doc => rw [renderGo_final]

/-- C3 counterexample: the claim says no operation — including
cancellation — populates `final` before all pages are done; but
`stop_comic_job` writes `final = {"status": "cancelled"}`
unconditionally, here on a fresh 2-page manifest with zero pages done
(it changes `final`, which was null). -/
theorem stop_populates_final_counterexample :
    ¬ (∀ m : Manifest, (∃ kv ∈ m.pages, kv.2.status ≠ "done") →
        (stopComicJob m).final = m.final) := by
  intro h
  have h2 := h (seedManifestPending 2)
    ⟨(1, { status := "pending" }), by decide, by decide⟩
  simp [stopComicJob, seedManifestPending] at h2

/-- C3 (amended): the worker populates `final` only when `final` was
null in the manifest it loaded at delivery start AND every page's local
file exists after the render; but cancellation (`stop_comic_job`)
always sets `final` to the cancelled marker, at any page progress,
overwriting any existing value. -/
theorem final_population_rules (envW : WorkerEnv) (req : ComicRequest)
    (workdir coverRef : String) (lb : Option LookbookDoc) (st : JobState) (m : Manifest) :
    ((stopComicJob m).final = some FinalState.cancelledMarker)
    ∧ ((workerProcess envW req workdir coverRef lb st).manifest.final
          ≠ st.manifest.final →
        st.manifest.final = none
        ∧ (List.range req.pages.length).all (fun i => decide ((i + 1) ∈
            (renderPagesChained envW.toRenderEnv req.pages workdir coverRef
              (some ("jobs/" ++ req.job_id)) lb st).files)) = true) := by
  refine ⟨rfl, ?_⟩
  intro hne
  unfold workerProcess at hne
  by_cases hcanc : st.manifest.cancelled = true
  · rw [if_pos hcanc] at hne
    exact absurd rfl hne
  · rw [if_neg hcanc] at hne
    by_cases hcov : envW.coverOk = true
    · rw [if_neg (by simp [hcov])] at hne
      by_cases hcond : ((List.range req.pages.length).all (fun i => decide ((i + 1) ∈
          (renderPagesChained envW.toRenderEnv req.pages workdir coverRef
            (some ("jobs/" ++ req.job_id)) lb st).files))
          && decide (st.manifest.final = none)) = true
      · rcases (Bool.and_eq_true _ _).mp hcond with ⟨hall, hfin⟩
        exact ⟨of_decide_eq_true hfin, hall⟩
      · rw [if_neg hcond] at hne
        exact absurd (renderPagesChained_final _ _ _ _ _ _ _) hne
    · rw [if_pos (by simp [hcov])] at hne
      exact absurd rfl hne

/-! ### Chain-reference evidence (C1) and re-delivery behaviour (C2) -/

def exEnvAllOk : RenderEnv :=
  { cancelledAt := fun _ => false
    refGen := fun _ => none
    resolvePath := fun _ => none
    genOk := fun _ _ => true
    genErr := fun _ _ => "image gen failed"
    uploadOk := fun _ => true
    uploadErr := fun _ => "upload failed"
    gcsInfo := fun _ => "gs://b/p.png" }

def exPage2 : Page := { page_number := 2, panels := [] }

/-- C1: evidence of the missing chain reference. In a fully successful
2-page run, page 2's generation call is issued only after page 1 is
done (the calls appear in page order) and the code tracks page 1's
output in `prev_ref` — but the image list actually passed to
`client.images.edit` is `image_paths_to_send = lookbook_ref_paths`,
which contains neither page 1's rendered file nor the root cover, so
the reference-image set does NOT include the previous page's output.
This contradicts the claim (and the function's own docstring, which
promises "previous rendered page (or cover for page 1) as first ref"). -/
theorem chain_reference_not_passed :
    ((renderPagesChained exEnvAllOk [exPlainPage, exPage2] "wd" "cover.png"
        (some "jobs/j") (some {}) exEmptyState).calls
      = [⟨1, 1, []⟩, ⟨2, 1, []⟩])
    ∧ (∀ c ∈ (renderPagesChained exEnvAllOk [exPlainPage, exPage2] "wd" "cover.png"
        (some "jobs/j") (some {}) exEmptyState).calls,
        pageFilePath "wd" 1 ∉ c.images ∧ "cover.png" ∉ c.images)
    ∧ ((renderPagesChained exEnvAllOk [exPlainPage, exPage2] "wd" "cover.png"
        (some "jobs/j") (some {}) exEmptyState).manifest.getPage 2).map
          (fun e => (e.status, e.prev_ref))
        = some ("done", some (pageFilePath "wd" 1))
    ∧ ((renderPagesChained exEnvAllOk [exPlainPage, exPage2] "wd" "cover.png"
        (some "jobs/j") (some {}) exEmptyState).manifest.getPage 1).map
          (fun e => (e.status, e.prev_ref))
        = some ("done", some "cover.png") := by
  refine ⟨by decide, ?_, by decide, by decide⟩
  decide

def exC2WEnv : WorkerEnv :=
  { toRenderEnv := exEnvAllOk
    coverOk := true
    finalUploadOk := true
    finalUploadErr := ""
    finalGcsInfo := "gs://b/final"
    prunePagesAfterFinal := false }

def exDoneEntry : PageEntry :=
  { status := "done"
    attempts := some 1
    uploaded := some true
    local_path := some "wd/page-1.png"
    gcs := some "gs://b/p.png" }

/-- Job state as left by a previous delivery: page 1 `done` with its
file on disk, page 2 still `pending`. -/
def exC2State : JobState :=
  { manifest :=
      { pages := [(1, exDoneEntry), (2, { status := "pending" })]
        final := none
        cancelled := false
        task_name := some "t" }
    files := [1] }

def exC2Req : ComicRequest := { job_id := "j", pages := [exPlainPage, exPage2] }

/-- C2 counterexample: re-delivering a job whose manifest shows page 1
already `done` (with its artifact on disk) still issues a generation
call for page 1 — the worker has no skip-done logic and always reruns
`render_pages_chained` from page 1, so "no generation call is issued
for pages 1..K" is false. -/
theorem resume_idempotence_counterexample :
    (exC2State.manifest.getPage 1 = some exDoneEntry ∧ exDoneEntry.status = "done")
    ∧ ¬ (∀ c ∈ (workerProcess exC2WEnv exC2Req "wd" "cover.png" (some {})
          exC2State).calls, c.page ≠ 1) := by
  refine ⟨⟨by decide, rfl⟩, ?_⟩
  intro h
  exact h ⟨1, 1, []⟩ (by decide) rfl

theorem runAttempts_calls_mono (env : RenderEnv) (gcsPre : Option String)
    (workdir : String) (pno : Nat) (refPaths : List String) (attempts : List Nat)
    (st : JobState) (c : GenCall) (hc : c ∈ st.calls) :
    c ∈ (runAttempts env gcsPre workdir pno refPaths attempts st).calls := by
  obtain ⟨L, hL, -, -⟩ := runAttempts_calls env gcsPre workdir pno refPaths attempts st
  rw [hL]
  exact List.mem_append_left _ hc

theorem renderGo_calls_mono (env : RenderEnv) (gcsPre : Option String)
    (workdir : String) (pages : List Page) (pno : Nat) (doc : LookbookDoc)
    (st : JobState) (c : GenCall) (hc : c ∈ st.calls) :
    c ∈ (renderGo env gcsPre workdir pages pno doc st).calls := by
  obtain ⟨L, hL, -, -⟩ := renderGo_calls env gcsPre workdir pages pno doc st
  rw [hL]
  exact List.mem_append_left _ hc

theorem runAttempts_first_call_mem (env : RenderEnv) (gcsPre : Option String)
    (workdir : String) (pno : Nat) (refPaths : List String) (a : Nat)
    (rest : List Nat) (st : JobState) :
    (⟨pno, a, refPaths⟩ : GenCall)
      ∈ (runAttempts env gcsPre workdir pno refPaths (a :: rest) st).calls := by
  simp only [runAttempts]
  by_cases hg : env.genOk pno a = true
  · rw [if_pos hg]
    show _ ∈ (attemptBase pno refPaths a st).calls
    simp [attemptBase]
  · rw [if_neg hg]
    refine runAttempts_calls_mono env gcsPre workdir pno refPaths rest _ _ ?_
    simp [attemptBase]

/-- C2 (amended): re-delivering a job re-runs the renderer from page 1
unconditionally — whatever the manifest records for pages 1..K, as long
as page 1 is reachable (job not cancelled, cover resolvable, page 1's
ids resolvable) a generation call for page 1, attempt 1, is issued
again; nothing skips already-`done` pages. -/
theorem redelivery_rerenders_from_page_one (envW : WorkerEnv) (req : ComicRequest)
    (workdir coverRef : String) (doc : LookbookDoc) (st : JobState)
    (page1 : Page) (rest : List Page)
    (hpages : req.pages = page1 :: rest)
    (hcanc : st.manifest.cancelled = false)
    (hcov : envW.coverOk = true)
    (hcanc1 : envW.cancelledAt 1 = false)
    (hmiss : (ensureRefAssetsForIds envW.toRenderEnv 1 doc (collectPageIds page1)).2 = []) :
    ∃ c ∈ (workerProcess envW req workdir coverRef (some doc) st).calls,
      c.page = 1 ∧ c.attempt = 1 := by
  have hwc : (workerProcess envW req workdir coverRef (some doc) st).calls
      = (renderPagesChained envW.toRenderEnv req.pages workdir coverRef
          (some ("jobs/" ++ req.job_id)) (some doc) st).calls := by
    unfold workerProcess
    rw [if_neg (by simp [hcanc]), if_neg (by simp [hcov])]
    by_cases hcond : (((List.range req.pages.length).all (fun i => decide ((i + 1) ∈
        (renderPagesChained envW.toRenderEnv req.pages workdir coverRef
          (some ("jobs/" ++ req.job_id)) (some doc) st).files)))
        && decide (st.manifest.final = none)) = true
    · rw [if_pos hcond]
      by_cases hpr : envW.prunePagesAfterFinal = true
      · rw [if_pos hpr]
        rfl
      · rw [if_neg hpr]
        rfl
    · rw [if_neg hcond]
  rw [hwc]
  unfold renderPagesChained
  rw [hpages]
  simp only [renderGo]
  rw [if_neg (by simp [hcanc1]), if_neg (by simp [hmiss])]
  set st1 := JobState.withManifest { st with prevRef := coverRef }
    (markPage ({ st with prevRef := coverRef } : JobState).manifest 1
      (markRunningStart ({ st with prevRef := coverRef } : JobState).prevRef
        (sortStrs (collectPageIds page1)))) with hst1
  set refPaths := collectRefPathsForSlice envW.toRenderEnv (buildLookbookSlice
    (ensureRefAssetsForIds envW.toRenderEnv 1 doc (collectPageIds page1)).1
    (collectPageIds page1)) with hrefPaths
  set st2 := runAttempts envW.toRenderEnv (some ("jobs/" ++ req.job_id)) workdir 1
    refPaths (List.range' 1 renderRetries) st1 with hst2
  have hcmem : (⟨1, 1, refPaths⟩ : GenCall) ∈ st2.calls := by
    rw [hst2]
    have hr : List.range' 1 renderRetries = 1 :: List.range' 2 2 := rfl
    rw [hr]
    exact runAttempts_first_call_mem envW.toRenderEnv _ workdir 1 refPaths 1
      (List.range' 2 2) st1
  by_cases hfile : 1 ∈ st2.files
  · rw [if_pos hfile]
    exact ⟨⟨1, 1, refPaths⟩,
      renderGo_calls_mono _ _ _ _ _ _ _ _ hcmem, rfl, rfl⟩
  · rw [if_neg hfile]
    exact ⟨⟨1, 1, refPaths⟩, hcmem, rfl, rfl⟩

/-- C2 amended-claim witness: the concrete re-delivered job (page 1
already `done`) issues a fresh generation call for page 1, attempt 1. -/
theorem redelivery_rerenders_from_page_one_witness :
    (exC2Req.pages = exPlainPage :: [exPage2]
      ∧ exC2State.manifest.cancelled = false
      ∧ exC2WEnv.coverOk = true
      ∧ exC2WEnv.cancelledAt 1 = false
      ∧ (ensureRefAssetsForIds exC2WEnv.toRenderEnv 1 {} (collectPageIds exPlainPage)).2 = [])
    ∧ ∃ c ∈ (workerProcess exC2WEnv exC2Req "wd" "cover.png" (some {}) exC2State).calls,
        c.page = 1 ∧ c.attempt = 1 := by
  refine ⟨⟨rfl, rfl, rfl, rfl, by decide⟩, ?_⟩
  exact redelivery_rerenders_from_page_one exC2WEnv exC2Req "wd" "cover.png" {}
    exC2State exPlainPage [exPage2] rfl rfl rfl rfl (by decide)

end ComicBookApi
